import Mathlib

/-
Verification development for the FarsiAI_text repository.

The repository converts Farsi markdown to RTL DOCX.  The core logic lives in
`app/utils/text_processor.py` (class EnhancedFarsiTextProcessor), `app/converter.py`
(class EnhancedConverter) and `app/main.py` (RateLimiter, endpoint handler).
Below, each Python function used by the claims is shallowly embedded as an
executable Lean function over `List Char` (regex transforms are hand-compiled
to scanners that implement the exact leftmost / greedy / lazy semantics of the
specific patterns, with the regex quoted next to each definition).

Encoding note: `text_processor.py` is stored double-encoded on disk; when the
Python interpreter reads it as UTF-8, the "Persian" replacement strings are the
mojibake character sequences "ØŒ" (U+00D8 U+0152), "Ø›" (U+00D8 U+203A),
"ØŸ" (U+00D8 U+0178), "Ùª" (U+00D9 U+00AA), quote replacements
"Â«", "Â»" (U+00C2 U+00AB / U+00BB) and "â€¹", "â€º"
(U+00E2 U+20AC U+00B9 / U+00BA), and the punctuation character class in the
typography rules is the set of characters occurring in those strings.  The
embedding reproduces these exact characters, since that is what the program
manipulates at run time.
-/

set_option maxRecDepth 20000
set_option maxHeartbeats 4000000

namespace FarsiDoc

/-- Characters treated as whitespace by Python `str.strip` / regex `\s`
(ASCII subset, which covers every string manipulated in this development). -/
def pyWs (c : Char) : Bool :=
  c = ' ' || c = '\t' || c = '\n' || c = '\r' || c = '\x0b' || c = '\x0c'

/-- Convenience: the character list of a string literal. -/
def chs (s : String) : List Char := s.data

/-- Count of leading characters satisfying `p`. -/
def countWhile (p : Char → Bool) : List Char → Nat
  | [] => 0
  | c :: cs => if p c then countWhile p cs + 1 else 0

/-- Python `str.lstrip()` (whitespace). -/
def stripLeft (l : List Char) : List Char := l.dropWhile pyWs

/-- Python `str.rstrip()` (whitespace), structurally recursive. -/
def stripRight : List Char → List Char
  | [] => []
  | c :: cs =>
    match stripRight cs with
    | [] => if pyWs c then [] else [c]
    | r => c :: r

/-- Python `str.strip()` (whitespace). -/
def pyStrip (l : List Char) : List Char := stripRight (stripLeft l)

/-- `begins pre l` : `l` starts with `pre` (Python `str.startswith`). -/
def begins : List Char → List Char → Bool
  | [], _ => true
  | _ :: _, [] => false
  | p :: ps, c :: cs => p = c && begins ps cs

/-- Python `str.endswith`. -/
def endsWith (suf l : List Char) : Bool := begins suf.reverse l.reverse

/-- Substring containment (Python `in` on strings). -/
def containsSub (needle : List Char) : List Char → Bool
  | [] => begins needle []
  | c :: cs => begins needle (c :: cs) || containsSub needle cs

/-- Index of the earliest occurrence of `needle` (nonempty) in the list. -/
def findSub (needle : List Char) : List Char → Option Nat
  | [] => none
  | c :: cs =>
    if begins needle (c :: cs) then some 0
    else (findSub needle cs).map (· + 1)

/-- Python `str.split('\n')`. -/
def splitNl : List Char → List (List Char)
  | [] => [[]]
  | c :: cs =>
    if c = '\n' then [] :: splitNl cs
    else
      match splitNl cs with
      | [] => [[c]]
      | h :: t => (c :: h) :: t

/-- Python `'\n'.join(...)`. -/
def joinNl : List (List Char) → List Char
  | [] => []
  | [l] => l
  | l :: ls => l ++ '\n' :: joinNl ls

/-- One scanning step of Python `str.replace(needle, repl)` /
`re.sub` restricted to a fixed-string needle; `fuel` bounds the number of
scan positions (each step consumes at least one character). -/
def replaceAllGo (needle repl : List Char) : Nat → List Char → List Char
  | 0, cs => cs
  | _, [] => []
  | fuel + 1, c :: cs =>
    if begins needle (c :: cs) then
      repl ++ replaceAllGo needle repl fuel ((c :: cs).drop needle.length)
    else
      c :: replaceAllGo needle repl fuel cs

/-- Python `str.replace(needle, repl)` for a nonempty needle. -/
def replaceAll (needle repl cs : List Char) : List Char :=
  replaceAllGo needle repl cs.length cs

/-- Generic engine for `re.sub(pattern, repl, text)`: `tryMatch` returns, for a
suffix of the text, the length of the leftmost match starting there (always
at least 1 for the patterns in this file) together with the replacement text.
On no match the scanner advances one character. -/
def scanSub (tryMatch : List Char → Option (Nat × List Char)) :
    Nat → List Char → List Char
  | 0, cs => cs
  | _, [] => []
  | fuel + 1, c :: cs =>
    match tryMatch (c :: cs) with
    | some (len, repl) => repl ++ scanSub tryMatch fuel (cs.drop (len - 1))
    | none => c :: scanSub tryMatch fuel cs

/-- Top-level `re.sub` wrapper: fuel = length of the text suffices because each
scan step consumes at least one character. -/
def reSub (tryMatch : List Char → Option (Nat × List Char)) (cs : List Char) :
    List Char :=
  scanSub tryMatch cs.length cs

/- ------------------------------------------------------------------ -/
/- Language span detection: EnhancedFarsiTextProcessor.detect_language_spans -/
/- ------------------------------------------------------------------ -/

/-- Language class tag used by the span detector (Python strings 'fa' / 'en'). -/
inductive SpanLang where
  | fa
  | en
deriving DecidableEq, Repr

/-- Membership in the char class
`[پچژگھیء-غف-ي]`
(`self.farsi_chars`, checked first in detect_language_spans). -/
def isFarsiChar (c : Char) : Bool :=
  let n := c.toNat
  n = 0x067E || n = 0x0686 || n = 0x0698 || n = 0x06AF || n = 0x06BE ||
  n = 0x06CC || (0x0621 ≤ n && n ≤ 0x063A) || (0x0641 ≤ n && n ≤ 0x064A)

/-- Membership in `[A-Za-z0-9]` (the Latin branch of detect_language_spans). -/
def isLatinChar (c : Char) : Bool :=
  ('A' ≤ c && c ≤ 'Z') || ('a' ≤ c && c ≤ 'z') || ('0' ≤ c && c ≤ '9')

/-- Character classification of detect_language_spans: Farsi, Latin, or
neutral (`none`, which inherits the current language). -/
def classify (c : Char) : Option SpanLang :=
  if isFarsiChar c then some .fa
  else if isLatinChar c then some .en
  else none

/-- A detected span: `(span_text, language, start_pos, end_pos)`. -/
structure LangSpan where
  text : List Char
  lang : SpanLang
  start : Nat
  stop : Nat
deriving DecidableEq, Repr

/-- The scanning loop of detect_language_spans.  `acc` holds the characters of
the current span (`text[current_start:i]`), `cur` is `current_lang`. -/
def detectGo : List Char → Nat → Nat → List Char → Option SpanLang →
    List LangSpan → List LangSpan
  | [], i, curStart, acc, cur, spans =>
    -- trailing span: `if current_start < len(text)` with `current_lang or 'fa'`
    if acc = [] then spans
    else if pyStrip acc = [] then spans
    else spans ++ [⟨acc, cur.getD .fa, curStart, i⟩]
  | c :: rest, i, curStart, acc, cur, spans =>
    let cl : Option SpanLang :=
      match classify c with
      | some l => some l
      | none => cur
    match cur with
    | none => detectGo rest (i + 1) curStart (acc ++ [c]) cl spans
    | some l =>
      if cl = some l then
        detectGo rest (i + 1) curStart (acc ++ [c]) (some l) spans
      else
        let spans' :=
          if pyStrip acc = [] then spans else spans ++ [⟨acc, l, curStart, i⟩]
        detectGo rest (i + 1) i [c] cl spans'

/-- EnhancedFarsiTextProcessor.detect_language_spans. -/
def detectLanguageSpans (cs : List Char) : List LangSpan :=
  detectGo cs 0 0 [] none []

/- ------------------------------------------------------------------ -/
/- wrap_ltr_content: code protection, LTR term wrapping, span wrapping -/
/- ------------------------------------------------------------------ -/

/-- Python regex `\w` (word character) as it applies to the characters that can
occur in this program's data: ASCII alphanumerics, underscore, Latin-1 /
Latin-Extended letters (including the mojibake characters the typography rules
produce) and Arabic-block letters and digits. -/
def isWordChar (c : Char) : Bool :=
  let n := c.toNat
  isLatinChar c || c = '_' ||
  (0x00C0 ≤ n && n ≤ 0x00FF && n ≠ 0x00D7 && n ≠ 0x00F7) ||
  n = 0x00AA || n = 0x00B5 || n = 0x00BA || n = 0x00B9 || n = 0x00B2 ||
  n = 0x00B3 || n = 0x0152 || n = 0x0153 || n = 0x0178 ||
  (0x0620 ≤ n && n ≤ 0x064A) || (0x0660 ≤ n && n ≤ 0x0669) ||
  (0x066E ≤ n && n ≤ 0x06D3) || (0x06F0 ≤ n && n ≤ 0x06F9)

/-- Word boundary `\b` between an optional previous character and an optional
next character: exactly one side is a word character. -/
def wordBoundary (prev next : Option Char) : Bool :=
  (match prev with | some p => isWordChar p | none => false) ≠
  (match next with | some d => isWordChar d | none => false)

/-- Case-insensitive character equality (re.IGNORECASE). -/
def eqCI (a b : Char) : Bool := a.toLower = b.toLower

/-- Token of a literal LTR-term pattern: either a literal run of characters or
`\s+` (one or more whitespace characters, greedy). -/
inductive TermTok where
  | lit (l : List Char)
  | wsPlus
deriving Repr

/-- Case-insensitive literal consumption: on success returns the remaining
characters. -/
def litMatch : List Char → List Char → Option (List Char)
  | [], cs => some cs
  | _ :: _, [] => none
  | a :: l, c :: cs => if eqCI a c then litMatch l cs else none

/-- Consume a token sequence from the front of `cs`, returning the number of
characters consumed.  Literals are matched case-insensitively; `\s+` consumes
a maximal whitespace run (backtracking cannot shorten it because the
following literal never begins with whitespace). -/
def consumeToks : List TermTok → List Char → Option Nat
  | [], _ => some 0
  | .lit l :: toks, cs =>
    match litMatch l cs with
    | some rest => (consumeToks toks rest).map (· + l.length)
    | none => none
  | .wsPlus :: toks, cs =>
    let k := countWhile pyWs cs
    if k = 0 then none else (consumeToks toks (cs.drop k)).map (· + k)

/-- Matcher for a pattern `\bLIT\b` (with possible `\s+` in the middle):
matches at the current position iff there is a word boundary before, the
token sequence matches, and a word boundary follows.  All the literal terms
begin and end with ASCII alphanumerics, so the boundary tests reduce to the
neighbouring outside characters being non-word. -/
def wordPat (toks : List TermTok) (prev : Option Char) (cs : List Char) :
    Option Nat :=
  if wordBoundary prev cs.head? then
    match consumeToks toks cs with
    | some n =>
      if wordBoundary ((cs.take n).getLast?) ((cs.drop n).head?) then some n
      else none
    | none => none
  else none

/-- Matcher for `\bv\d+\.\d+\b` (case-insensitive, so `v` or `V`). -/
def matchVersion (prev : Option Char) (cs : List Char) : Option Nat :=
  match cs with
  | c :: rest =>
    if eqCI c 'v' && wordBoundary prev (some c) then
      let d1 := countWhile (fun x => '0' ≤ x && x ≤ '9') rest
      if d1 = 0 then none
      else
        match rest.drop d1 with
        | '.' :: r2 =>
          let d2 := countWhile (fun x => '0' ≤ x && x ≤ '9') r2
          if d2 = 0 then none
          else if wordBoundary (some '0') ((r2.drop d2).head?) then
            some (1 + d1 + 1 + d2)
          else none
        | _ => none
    else none
  | [] => none

/-- Matcher for `\b\d+\.\d+\.\d+\b`. -/
def matchSemver (prev : Option Char) (cs : List Char) : Option Nat :=
  let isD := fun x => '0' ≤ x && x ≤ '9'
  match cs with
  | c :: _ =>
    if isD c && wordBoundary prev (some c) then
      let d1 := countWhile isD cs
      match cs.drop d1 with
      | '.' :: r2 =>
        let d2 := countWhile isD r2
        if d2 = 0 then none
        else
          match r2.drop d2 with
          | '.' :: r3 =>
            let d3 := countWhile isD r3
            if d3 = 0 then none
            else if wordBoundary (some '0') ((r3.drop d3).head?) then
              some (d1 + 1 + d2 + 1 + d3)
            else none
          | _ => none
      | _ => none
    else none
  | [] => none

/-- Matcher for `\.\w{2,4}\b` (no leading boundary): a literal dot followed by
2 to 4 word characters ending at a word boundary.  With the greedy bounded
quantifier this matches exactly when the maximal word-character run after the
dot has length between 2 and 4. -/
def matchFileExt (_prev : Option Char) (cs : List Char) : Option Nat :=
  match cs with
  | '.' :: rest =>
    let r := countWhile isWordChar rest
    if 2 ≤ r && r ≤ 4 then some (1 + r) else none
  | _ => none

/-- Local-part character class `[A-Za-z0-9._%+-]` of the email pattern. -/
def emailLocalChar (c : Char) : Bool :=
  isLatinChar c || c = '.' || c = '_' || c = '%' || c = '+' || c = '-'

/-- Domain character class `[A-Za-z0-9.-]` of the email pattern. -/
def emailDomChar (c : Char) : Bool :=
  isLatinChar c || c = '.' || c = '-'

/-- TLD character class `[A-Z|a-z]` (the source pattern literally includes
the bar character). -/
def emailTldChar (c : Char) : Bool :=
  ('A' ≤ c && c ≤ 'Z') || ('a' ≤ c && c ≤ 'z') || c = '|'

/-- Backtracking search for the trailing `[A-Z|a-z]{2,}\b` of the email
pattern at `cs`: try lengths from the maximal TLD-character run down to 2,
accepting the first length followed by a word boundary. -/
def emailTldAt (cs : List Char) : Option Nat :=
  let m := countWhile emailTldChar cs
  let rec tryLen : Nat → Option Nat
    | 0 => none
    | 1 => none
    | k + 2 =>
      if k + 2 ≤ m &&
          wordBoundary ((cs.take (k + 2)).getLast?) ((cs.drop (k + 2)).head?)
      then some (k + 2)
      else tryLen (k + 1)
  tryLen m

/-- Backtracking search for the dot position of `[A-Za-z0-9.-]+\.TLD`: the
greedy domain run prefers the latest usable dot, so try dot offsets from
`m - 1` down to 1 (at least one domain character before the dot). -/
def emailDotAt (cs : List Char) (m : Nat) : Option (Nat × Nat) :=
  let rec tryDot : Nat → Option (Nat × Nat)
    | 0 => none
    | t + 1 =>
      if t + 1 ≤ m - 1 then
        match cs.drop (t + 1) with
        | '.' :: r =>
          match emailTldAt r with
          | some tl => some (t + 1, tl)
          | none => tryDot t
        | _ => tryDot t
      else tryDot t
  tryDot m

/-- Matcher for the email pattern
`\b[A-Za-z0-9._%+-]+@[A-Za-z0-9.-]+\.[A-Z|a-z]{2,}\b`. -/
def matchEmail (prev : Option Char) (cs : List Char) : Option Nat :=
  let k1 := countWhile emailLocalChar cs
  if k1 = 0 then none
  else if ¬ wordBoundary prev cs.head? then none
  else
    match cs.drop k1 with
    | '@' :: rest =>
      let m := countWhile emailDomChar rest
      match emailDotAt rest m with
      | some (t, tl) => some (k1 + 1 + t + 1 + tl)
      | none => none
    | _ => none

/-- Character class `[^\s<>"]` of the URL pattern. -/
def urlBodyChar (c : Char) : Bool :=
  ¬ pyWs c && c ≠ '<' && c ≠ '>' && c ≠ '"'

/-- Matcher for `https?://[^\s<>"]+` (case-insensitive, no boundaries). -/
def matchUrl (_prev : Option Char) (cs : List Char) : Option Nat :=
  match consumeToks [.lit (chs "http")] cs with
  | some _ =>
    let tryFrom (n : Nat) : Option Nat :=
      match consumeToks [.lit (chs "://")] (cs.drop n) with
      | some _ =>
        let b := countWhile urlBodyChar (cs.drop (n + 3))
        if b = 0 then none else some (n + 3 + b)
      | none => none
    match cs.drop 4 with
    | c :: _ =>
      if eqCI c 's' then
        match tryFrom 5 with
        | some r => some r
        | none => tryFrom 4
      else tryFrom 4
    | [] => tryFrom 4
  | none => none

/-- The literal LTR terms of `self.ltr_terms`, in source order (each is a
`\b...\b` pattern, `\s+` written as `wsPlus`). -/
def ltrWordToks : List (List TermTok) :=
  [[.lit (chs "API")], [.lit (chs "Graph")], [.lit (chs "Instagram")],
   [.lit (chs "Facebook")], [.lit (chs "n8n")],
   [.lit (chs "Access"), .wsPlus, .lit (chs "Token")],
   [.lit (chs "Credential")], [.lit (chs "Workflow")],
   [.lit (chs "Dashboard")], [.lit (chs "Meta")],
   [.lit (chs "Business"), .wsPlus, .lit (chs "Account")],
   [.lit (chs "Professional"), .wsPlus, .lit (chs "Account")],
   [.lit (chs "Admin")], [.lit (chs "Settings")],
   [.lit (chs "App"), .wsPlus, .lit (chs "ID")],
   [.lit (chs "App"), .wsPlus, .lit (chs "Secret")],
   [.lit (chs "OAuth")], [.lit (chs "JSON")], [.lit (chs "XML")],
   [.lit (chs "HTML")], [.lit (chs "CSS")], [.lit (chs "JavaScript")],
   [.lit (chs "Python")], [.lit (chs "URL")], [.lit (chs "HTTP")],
   [.lit (chs "HTTPS")], [.lit (chs "GitHub")], [.lit (chs "Google")]]

/-- The full matcher list of `self.ltr_terms`, in source order. -/
def ltrTermMatchers : List (Option Char → List Char → Option Nat) :=
  ltrWordToks.map wordPat ++
  [matchVersion, matchSemver, matchFileExt, matchEmail, matchUrl]

/-- Replacement markup inserted by the term loop and the span loop of
wrap_ltr_content. -/
def spanOpen : List Char := chs "<span dir=\"ltr\">"

/-- Closing tag of the direction marker. -/
def spanClose : List Char := chs "</span>"

/-- One `re.sub(term_pattern, <wrap in dir="ltr" span>, text)` pass: scanning
with the previous original character tracked for `\b`. -/
def scanTermGo (tryM : Option Char → List Char → Option Nat) :
    Nat → Option Char → List Char → List Char
  | 0, _, cs => cs
  | _, _, [] => []
  | fuel + 1, prev, c :: rest =>
    match tryM prev (c :: rest) with
    | some len =>
      let m := (c :: rest).take len
      spanOpen ++ m ++ spanClose ++
        scanTermGo tryM fuel ((c :: rest).get? (len - 1)) (rest.drop (len - 1))
    | none => c :: scanTermGo tryM fuel (some c) rest

/-- The `for term_pattern in self.ltr_terms: text = re.sub(...)` loop. -/
def applyLtrTerms (cs : List Char) : List Char :=
  ltrTermMatchers.foldl (fun t m => scanTermGo m t.length none t) cs

/-- Decimal digits of a natural number (kernel-reducible `str(k)`). -/
def natReprGo : Nat → Nat → List Char → List Char
  | 0, _, acc => acc
  | fuel + 1, n, acc =>
    let d := Char.ofNat (48 + n % 10)
    if n < 10 then d :: acc else natReprGo fuel (n / 10) (d :: acc)

/-- Decimal representation of a natural number. -/
def natRepr (n : Nat) : List Char := natReprGo (n + 1) n []

/-- Placeholder `__PROTECTED_CODE_{k}__` used by protect_code. -/
def placeholder (k : Nat) : List Char :=
  chs "__PROTECTED_CODE_" ++ natRepr k ++ chs "__"

/-- Leftmost-lazy match of ```` ```[\s\S]*?``` ````: an opening triple
backtick followed by the earliest closing triple backtick. -/
def tryCodeBlock (cs : List Char) : Option Nat :=
  if begins (chs "```") cs then
    match findSub (chs "```") (cs.drop 3) with
    | some j => some (3 + j + 3)
    | none => none
  else none

/-- The backtick character. -/
def btick : Char := Char.ofNat 96

/-- Match of the inline-code pattern (a backtick, a maximal nonempty run of
non-backtick non-newline characters, then a backtick). -/
def tryInlineCode (cs : List Char) : Option Nat :=
  match cs with
  | c :: rest =>
    if c = btick then
      let r := countWhile (fun x => ¬ (x = btick) && ¬ (x = '\n')) rest
      if r = 0 then none
      else if (rest.drop r).head? = some btick then some (r + 2) else none
    else none
  | [] => none

/-- Stateful `re.sub(pattern, protect_code, text)`: every match is appended
to the protected-blocks list and replaced by its placeholder. -/
def protectGo (tryM : List Char → Option Nat) :
    Nat → List Char → List (List Char) → List Char × List (List Char)
  | 0, cs, blocks => (cs, blocks)
  | _, [], blocks => ([], blocks)
  | fuel + 1, c :: rest, blocks =>
    match tryM (c :: rest) with
    | some len =>
      let blk := (c :: rest).take len
      let ph := placeholder blocks.length
      let (t, bs) := protectGo tryM fuel (rest.drop (len - 1)) (blocks ++ [blk])
      (ph ++ t, bs)
    | none =>
      let (t, bs) := protectGo tryM fuel rest blocks
      (c :: t, bs)

/-- The per-line else-branch of wrap_ltr_content (lines 149-156): Latin spans
whose stripped text is longer than one character are wrapped, all other spans
are emitted verbatim. -/
def renderSpans (spans : List LangSpan) : List Char :=
  spans.foldl
    (fun r sp =>
      r ++ (if sp.lang = .en && decide (1 < (pyStrip sp.text).length) then
              spanOpen ++ sp.text ++ spanClose
            else sp.text))
    []

/-- The per-line body of wrap_ltr_content's line loop. -/
def wrapLine (line : List Char) : List Char :=
  if pyStrip line = [] then line
  else if containsSub (chs "```") line || begins (chs "    ") (pyStrip line) ||
      containsSub (chs "<span dir=") line || begins (chs "#") line then line
  else
    let spans := detectLanguageSpans line
    if 1 < spans.length then renderSpans spans else line

/-- The `for i, block in enumerate(protected_blocks): text = text.replace(...)`
restoration loop. -/
def restoreBlocks : List (List Char) → Nat → List Char → List Char
  | [], _, t => t
  | b :: bs, i, t => restoreBlocks bs (i + 1) (replaceAll (placeholder i) b t)

/-- EnhancedFarsiTextProcessor.wrap_ltr_content. -/
def wrapLtrContent (cs : List Char) : List Char :=
  let p1 := protectGo tryCodeBlock cs.length cs []
  let p2 := protectGo tryInlineCode p1.1.length p1.1 p1.2
  let t3 := applyLtrTerms p2.1
  let t4 := joinNl ((splitNl t3).map wrapLine)
  restoreBlocks p2.2 0 t4

/- ------------------------------------------------------------------ -/
/- apply_persian_typography                                            -/
/- ------------------------------------------------------------------ -/

/-- Replacement string for `','` in `self.persian_punctuation`
(the mojibake sequence U+00D8 U+0152 actually stored in the source). -/
def mojComma : List Char := [Char.ofNat 0x00D8, Char.ofNat 0x0152]

/-- Replacement string for `';'` (U+00D8 U+203A). -/
def mojSemi : List Char := [Char.ofNat 0x00D8, Char.ofNat 0x203A]

/-- Replacement string for `'?'` (U+00D8 U+0178). -/
def mojQuestion : List Char := [Char.ofNat 0x00D8, Char.ofNat 0x0178]

/-- Replacement string for `'%'` (U+00D9 U+00AA). -/
def mojPercent : List Char := [Char.ofNat 0x00D9, Char.ofNat 0x00AA]

/-- Left / right double-quote replacements (mojibake "Â«" / "Â»"). -/
def mojLaq : List Char := [Char.ofNat 0x00C2, Char.ofNat 0x00AB]

/-- Right double-quote replacement. -/
def mojRaq : List Char := [Char.ofNat 0x00C2, Char.ofNat 0x00BB]

/-- Left single-quote replacement (mojibake "â€¹"). -/
def mojLsq : List Char := [Char.ofNat 0x00E2, Char.ofNat 0x20AC, Char.ofNat 0x00B9]

/-- Right single-quote replacement (mojibake "â€º"). -/
def mojRsq : List Char := [Char.ofNat 0x00E2, Char.ofNat 0x20AC, Char.ofNat 0x00BA]

/-- Single-character replacement (one pass of Python
`text.replace(k, rep)` for a one-character needle). -/
def replaceCharAll (k : Char) (rep : List Char) : List Char → List Char
  | [] => []
  | c :: cs => (if c = k then rep else [c]) ++ replaceCharAll k rep cs

/-- The `self.persian_punctuation` mapping in dict (insertion) order. -/
def persianPunctPairs : List (Char × List Char) :=
  [(',', mojComma), (';', mojSemi), ('?', mojQuestion), ('%', mojPercent)]

/-- The `for latin, persian in self.persian_punctuation.items():
text = text.replace(latin, persian)` loop. -/
def applyPersianPunct (cs : List Char) : List Char :=
  persianPunctPairs.foldl (fun t p => replaceCharAll p.1 p.2 t) cs

/-- The character class of the typography rules, i.e. the set of characters
occurring in the four mojibake replacement strings. -/
def punctClassChar (c : Char) : Bool :=
  let n := c.toNat
  n = 0x00D8 || n = 0x0152 || n = 0x203A || n = 0x0178 || n = 0x00D9 ||
  n = 0x00AA

/-- Typography rule `' +([class])' -> '\1'`: a maximal run of spaces followed
by a class character collapses to the class character. -/
def trySpacesThenPunct (cs : List Char) : Option (Nat × List Char) :=
  match cs with
  | ' ' :: rest =>
    let k := countWhile (· = ' ') rest
    match rest.drop k with
    | p :: _ => if punctClassChar p then some (k + 2, [p]) else none
    | [] => none
  | _ => none

/-- Typography rule `'([class])(?=[^\s])' -> '\1 '`: a class character
followed (lookahead, not consumed) by a non-whitespace character gains one
trailing space. -/
def tryPunctNoSpace (cs : List Char) : Option (Nat × List Char) :=
  match cs with
  | p :: d :: _ =>
    if punctClassChar p && ¬ pyWs d then some (1, [p, ' ']) else none
  | _ => none

/-- Rule `' +' -> ' '`: a maximal run of spaces collapses to one space. -/
def tryManySpaces (cs : List Char) : Option (Nat × List Char) :=
  match cs with
  | ' ' :: rest => some (countWhile (· = ' ') rest + 1, [' '])
  | _ => none

/-- Rule `'"([^"]*)"' -> 'Â«\1Â»'`: a double quote, the (necessarily maximal)
run up to the next double quote, and that closing quote. -/
def tryDoubleQuote (cs : List Char) : Option (Nat × List Char) :=
  match cs with
  | '"' :: rest =>
    match findSub ['"'] rest with
    | some j => some (j + 2, mojLaq ++ rest.take j ++ mojRaq)
    | none => none
  | _ => none

/-- Rule for single quotes, same shape with the mojibake replacements. -/
def trySingleQuote (cs : List Char) : Option (Nat × List Char) :=
  let q : Char := Char.ofNat 39
  match cs with
  | c :: rest =>
    if c = q then
      match findSub [q] rest with
      | some j => some (j + 2, mojLsq ++ rest.take j ++ mojRsq)
      | none => none
    else none
  | [] => none

/-- EnhancedFarsiTextProcessor.apply_persian_typography: the punctuation
replacement loop followed by the five typography rules in source order. -/
def applyPersianTypography (cs : List Char) : List Char :=
  reSub trySingleQuote (reSub tryDoubleQuote (reSub tryManySpaces
    (reSub tryPunctNoSpace (reSub trySpacesThenPunct (applyPersianPunct cs)))))

/- ------------------------------------------------------------------ -/
/- enhance_markdown_structure                                          -/
/- ------------------------------------------------------------------ -/

/-- Table-cell separator rule `'\s*\|\s*' -> ' | '`. -/
def tryPipeWs (cs : List Char) : Option (Nat × List Char) :=
  let k1 := countWhile pyWs cs
  match cs.drop k1 with
  | '|' :: r => some (k1 + 1 + countWhile pyWs r, chs " | ")
  | _ => none

/-- Anchored rule `'^\s*\|\s*' -> '| '` (one attempt at the line start). -/
def anchorStartPipe (cs : List Char) : List Char :=
  let k1 := countWhile pyWs cs
  match cs.drop k1 with
  | '|' :: r => chs "| " ++ r.drop (countWhile pyWs r)
  | _ => cs

/-- Anchored rule `'\s*\|\s*$' -> ' |'` (one attempt at the line end). -/
def anchorEndPipe (cs : List Char) : List Char :=
  let rev := cs.reverse
  let k2 := countWhile pyWs rev
  match rev.drop k2 with
  | '|' :: r2 => ((r2.drop (countWhile pyWs r2)).reverse) ++ chs " |"
  | _ => cs

/-- The table branch of enhance_markdown_structure (lines 208-216). -/
def fixTableLine (line : List Char) : List Char :=
  let l1 := if ¬ begins (chs "|") (pyStrip line) then chs "| " ++ pyStrip line
            else line
  let l2 := if ¬ endsWith (chs "|") (pyStrip l1) then stripRight l1 ++ chs " |"
            else l1
  anchorEndPipe (anchorStartPipe (reSub tryPipeWs l2))

/-- The header branch of enhance_markdown_structure (lines 221-228):
`re.match(r'^(#+)\s*(.*)$', line)` and rebuild as `level + ' ' + title`. -/
def fixHeaderLine (line : List Char) : List Char :=
  if begins (chs "#") line then
    let lvl := countWhile (· = '#') line
    let rest := line.drop lvl
    let title := pyStrip (rest.drop (countWhile pyWs rest))
    if title = [] then line
    else List.replicate lvl '#' ++ ' ' :: title
  else line

/-- Test for `re.match(r'^\s*[-*+]\s', line)`. -/
def isUnorderedStart (line : List Char) : Bool :=
  let k := countWhile pyWs line
  match line.drop k with
  | m :: d :: _ => (m = '-' || m = '*' || m = '+') && pyWs d
  | _ => false

/-- `re.sub(r'^(\s*)([-*+])\s+', r'\1- ', line)`: rewrite the marker to `- `
(assuming `isUnorderedStart`, under which the anchored pattern matches). -/
def fixUnordered (line : List Char) : List Char :=
  let k := countWhile pyWs line
  match line.drop k with
  | _ :: r =>
    line.take k ++ chs "- " ++ r.drop (countWhile pyWs r)
  | [] => line

/-- Test for `re.match(r'^\s*\d+\.\s', line)`. -/
def isOrderedStart (line : List Char) : Bool :=
  let k := countWhile pyWs line
  let rest := line.drop k
  let d := countWhile (fun x => '0' ≤ x && x ≤ '9') rest
  if d = 0 then false
  else
    match rest.drop d with
    | '.' :: w :: _ => pyWs w
    | _ => false

/-- `re.sub(r'^(\s*)(\d+)\.\s+', r'\1\2. ', line)` (assuming
`isOrderedStart`). -/
def fixOrdered (line : List Char) : List Char :=
  let k := countWhile pyWs line
  let rest := line.drop k
  let d := countWhile (fun x => '0' ≤ x && x ≤ '9') rest
  match rest.drop d with
  | _ :: r =>
    line.take k ++ rest.take d ++ chs ". " ++ r.drop (countWhile pyWs r)
  | [] => line

/-- The line loop of enhance_markdown_structure, carrying the
`in_code_block` and `in_table` state. -/
def structGo : List (List Char) → Bool → Bool → List (List Char)
  | [], _, _ => []
  | line :: rest, inCode, inTable =>
    if begins (chs "```") (pyStrip line) then
      line :: structGo rest (¬ inCode) inTable
    else if inCode then
      line :: structGo rest inCode inTable
    else
      let tbl : List Char × Bool :=
        if containsSub (chs "|") line && ¬ begins (chs "#") (pyStrip line) then
          (fixTableLine line, true)
        else if inTable && pyStrip line = [] then (line, false)
        else (line, inTable)
      let l2 := fixHeaderLine tbl.1
      let l3 :=
        if isUnorderedStart l2 then fixUnordered l2
        else if isOrderedStart l2 then fixOrdered l2
        else l2
      l3 :: structGo rest inCode tbl.2

/-- EnhancedFarsiTextProcessor.enhance_markdown_structure. -/
def enhanceMarkdownStructure (cs : List Char) : List Char :=
  joinNl (structGo (splitNl cs) false false)

/- ------------------------------------------------------------------ -/
/- add_rtl_metadata                                                    -/
/- ------------------------------------------------------------------ -/

/-- The YAML header prepended when no front matter exists. -/
def yamlHeader : List Char := chs "---\nlang: fa\ndir: rtl\n---\n\n"

/-- `for i, line in enumerate(lines[1:], 1): if line.strip() == '---'`. -/
def findYamlEnd (lines : List (List Char)) : Option Nat :=
  let rec go : List (List Char) → Nat → Option Nat
    | [], _ => none
    | l :: ls, i => if pyStrip l = chs "---" then some i else go ls (i + 1)
  match lines with
  | [] => none
  | _ :: rest => go rest 1

/-- EnhancedFarsiTextProcessor.add_rtl_metadata. -/
def addRtlMetadata (cs : List Char) : List Char :=
  if begins (chs "---") (pyStrip cs) then
    let lines := splitNl cs
    match findYamlEnd lines with
    | some yEnd =>
      let sect := (lines.drop 1).take (yEnd - 1)
      let hasLang := sect.any (fun l => containsSub (chs "lang:") l)
      let hasDir := sect.any (fun l => containsSub (chs "dir:") l)
      let sect' := sect ++ (if hasLang then [] else [chs "lang: fa"]) ++
        (if hasDir then [] else [chs "dir: rtl"])
      joinNl ([chs "---"] ++ sect' ++ lines.drop yEnd)
    | none => yamlHeader ++ cs
  else yamlHeader ++ cs

/- ------------------------------------------------------------------ -/
/- final_cleanup                                                       -/
/- ------------------------------------------------------------------ -/

/-- The character class `[class!]` of final_cleanup: the typography class
plus the exclamation mark. -/
def punctBangChar (c : Char) : Bool := punctClassChar c || c = '!'

/-- Rule `'\n\s*\n\s*\n\s*\n+' -> '\n\n'`: matches at a newline whose maximal
whitespace run contains at least four newlines; the greedy pieces make the
match end just after the last newline of that run. -/
def tryBlankRun (cs : List Char) : Option (Nat × List Char) :=
  match cs with
  | '\n' :: rest =>
    let k := countWhile pyWs rest
    let run := rest.take k
    let nl := run.filter (· = '\n')
    if 3 ≤ nl.length then
      match (run.reverse.findIdx? (· = '\n')) with
      | some j => some (1 + (k - j), chs "\n\n")
      | none => none
    else none
  | _ => none

/-- Rule `'\s+([class!])' -> '\1'`. -/
def tryWsThenBang (cs : List Char) : Option (Nat × List Char) :=
  match cs with
  | c :: rest =>
    if pyWs c then
      let k := countWhile pyWs rest
      match rest.drop k with
      | p :: _ => if punctBangChar p then some (k + 2, [p]) else none
      | [] => none
    else none
  | [] => none

/-- Rule `'([class!])(?=[^\s])' -> '\1 '`. -/
def tryBangNoSpace (cs : List Char) : Option (Nat × List Char) :=
  match cs with
  | p :: d :: _ =>
    if punctBangChar p && ¬ pyWs d then some (1, [p, ' ']) else none
  | _ => none

/-- Rule `'\s*\(\s*' -> ' ('`. -/
def tryOpenParen (cs : List Char) : Option (Nat × List Char) :=
  let k1 := countWhile pyWs cs
  match cs.drop k1 with
  | '(' :: r => some (k1 + 1 + countWhile pyWs r, chs " (")
  | _ => none

/-- Rule `'\s*\)\s*' -> ') '`. -/
def tryCloseParen (cs : List Char) : Option (Nat × List Char) :=
  let k1 := countWhile pyWs cs
  match cs.drop k1 with
  | ')' :: r => some (k1 + 1 + countWhile pyWs r, chs ") ")
  | _ => none

/-- EnhancedFarsiTextProcessor.final_cleanup. -/
def finalCleanup (cs : List Char) : List Char :=
  pyStrip (reSub tryManySpaces (reSub tryCloseParen (reSub tryOpenParen
    (reSub tryBangNoSpace (reSub tryWsThenBang (reSub tryBlankRun cs))))))

/- ------------------------------------------------------------------ -/
/- preprocess_text                                                     -/
/- ------------------------------------------------------------------ -/

/-- The six processing steps of preprocess_text in source order.  The first
step, `unicodedata.normalize('NFKC', text)`, calls an external library
function and is taken as a parameter of the model. -/
def preprocessSteps (nfkc : List Char → List Char) :
    List (List Char → List Char) :=
  [nfkc, addRtlMetadata, applyPersianTypography, enhanceMarkdownStructure,
   wrapLtrContent, finalCleanup]

/-- Apply the first `k` functions of a step list to `t`. -/
def runFirstSteps : List (List Char → List Char) → Nat → List Char → List Char
  | _, 0, t => t
  | [], _, t => t
  | f :: fs, k + 1, t => runFirstSteps fs k (f t)

/-- preprocess_text when the step with index `k` (0-based) raises: the local
variable `text` has been rebound by each completed step, and the
`except Exception` handler returns its current value, i.e. the composition of
the first `k` steps.  `k ≥ 6` means no step raised. -/
def preprocessTextFailingAt (nfkc : List Char → List Char) (k : Nat)
    (t : List Char) : List Char :=
  runFirstSteps (preprocessSteps nfkc) k t

/-- EnhancedFarsiTextProcessor.preprocess_text on the success path. -/
def preprocessText (nfkc : List Char → List Char) (t : List Char) :
    List Char :=
  runFirstSteps (preprocessSteps nfkc) 6 t

/- ------------------------------------------------------------------ -/
/- EnhancedConverter: command construction and the conversion flow     -/
/- ------------------------------------------------------------------ -/

/-- The configured allowed output formats (`ALLOWED` in config.py). -/
def allowedFormats : List String := ["docx"]

/-- The `--reference-doc=` argument for a reference document at `p`. -/
def refDocArg (p : String) : String := "--reference-doc=" ++ p

/-- EnhancedConverter._create_reference_docx: writes `reference.md` in the
per-request temporary workspace and runs pandoc on it; returns the path
`temp_dir + "/reference.docx"` if that pandoc run succeeded and the file
exists (`refOk`), else `None`.  There is no lookup of any previously created
reference document: the path is always inside the fresh temp workspace. -/
def createReferenceDocx (tempDir : String) (refOk : Bool) : Option String :=
  if refOk then some (tempDir ++ "/reference.docx") else none

/-- Result of _build_pandoc_command: the command vector, and whether
_create_reference_docx was invoked (a reference-document generation attempt
was made) during this call. -/
structure BuildResult where
  cmd : List String
  refAttempted : Bool
deriving DecidableEq, Repr

/-- EnhancedConverter._build_pandoc_command for the docx branch (lines
262-290), with the best detected font and mono font as parameters. -/
def buildDocxCommand (inputPath outputPath tempDir font monoFont : String)
    (refOk : Bool) : BuildResult :=
  { cmd :=
      ["pandoc", inputPath, "-o", outputPath,
       "--metadata=lang:fa", "--metadata=dir:rtl",
       "--variable=mainfont:" ++ font, "--variable=sansfont:" ++ font,
       "--variable=monofont:" ++ monoFont,
       "--variable=fontsize:12pt", "--variable=linestretch:1.5"] ++
      (match createReferenceDocx tempDir refOk with
       | some p => [refDocArg p]
       | none => []) ++
      ["--wrap=preserve", "--columns=120", "--tab-stop=4"],
    refAttempted := true }

/-- EnhancedConverter._build_pandoc_command: format validation, then the
docx branch (the only allowed format); other formats would get the bare
command and no reference-document attempt. -/
def buildPandocCommand (inputPath outputPath fmt tempDir font monoFont :
    String) (refOk : Bool) : Except String BuildResult :=
  if fmt ∈ allowedFormats then
    if fmt = "docx" then
      .ok (buildDocxCommand inputPath outputPath tempDir font monoFont refOk)
    else .ok { cmd := ["pandoc", inputPath, "-o", outputPath],
               refAttempted := false }
  else .error ("Unsupported format: " ++ fmt)

/-- Outcome of the awaited pandoc subprocess in render_markdown_async:
success, a nonzero exit status (with captured stderr and whether a partially
written output file was left), a timeout (likewise), or a missing
executable. -/
inductive PandocOutcome where
  | success
  | exitNonzero (stderr : String) (wrotePart : Bool)
  | timedOut (wrotePart : Bool)
  | execMissing
deriving DecidableEq, Repr

/-- Errors raised by render_markdown_async, mirroring the Python exception
types reaching main.convert. -/
inductive ConvError where
  | valueError (msg : String)
  | calledProcessError (stderr : String)
  | timeoutExpired
  | fileNotFoundError
deriving DecidableEq, Repr

/-- Result of one render_markdown_async call: the returned output path or the
raised error, together with the files of this request still on disk
afterwards. -/
structure RenderOutcome where
  result : Except ConvError String
  files : List String
deriving Repr

instance : DecidableEq (Except ConvError String) := fun a b =>
  match a, b with
  | .ok x, .ok y => if h : x = y then .isTrue (by rw [h]) else
      .isFalse (by intro hc; cases hc; exact h rfl)
  | .error x, .error y => if h : x = y then .isTrue (by rw [h]) else
      .isFalse (by intro hc; cases hc; exact h rfl)
  | .ok _, .error _ => .isFalse (by intro hc; cases hc)
  | .error _, .ok _ => .isFalse (by intro hc; cases hc)

/-- The files written into the per-request temporary workspace. -/
def tempFilesOf (tempDir : String) (refOk : Bool) : List String :=
  [tempDir ++ "/input.md", tempDir ++ "/reference.md"] ++
  (if refOk then [tempDir ++ "/reference.docx"] else [])

/-- The unique generated output path `OUT_DIR/output_<timestamp>.<format>`. -/
def outputPathOf (outDir ts fmt : String) : String :=
  outDir ++ "/output_" ++ ts ++ "." ++ fmt

/-- EnhancedConverter.render_markdown_async (lines 292-389) as a transition
on the set of files on disk.  On failure the raised error carries the
captured stderr (which is logged, never returned to a client); the `finally`
block removes the temporary workspace (every path under `tempDir + "/"`), and
no branch removes the output file. -/
def renderMarkdownAsync (outDir tempDir ts : String) (refOk : Bool)
    (pandoc : PandocOutcome) : RenderOutcome :=
  let outputPath := outputPathOf outDir ts "docx"
  let temps := tempFilesOf tempDir refOk
  let afterRun : Except ConvError String × List String :=
    match pandoc with
    | .success => (.ok outputPath, temps ++ [outputPath])
    | .exitNonzero stderr wrote =>
      (.error (.calledProcessError stderr),
       temps ++ (if wrote then [outputPath] else []))
    | .timedOut wrote =>
      (.error .timeoutExpired, temps ++ (if wrote then [outputPath] else []))
    | .execMissing => (.error .fileNotFoundError, temps)
  { result := afterRun.1,
    files := afterRun.2.filter (fun f => decide (f ∉ temps)) }

/-- Detail string of the HTTPException built by main's global exception
handler (main.py line 183), which is what every non-ValueError failure of a
conversion actually produces — a fixed message with no tool diagnostics. -/
def globalHandlerDetail : String :=
  "An unexpected internal error occurred."

/-- HTTP-level result of the /api/convert endpoint. -/
inductive HttpResult where
  | fileResponse (path : String)
  | httpError (status : Nat) (detail : String)
deriving DecidableEq, Repr

/-- main.convert (main.py lines 129-173) for a request that passed the
format and size validation: write `{uid}.md`, render (the legacy wrapper
moves the converter's output to `{uid}.docx` on success), and dispatch
failures as the program actually does.  The first clause,
`except ValueError`, names a builtin and fires normally (HTTP 400 with the
error text).  For every other exception the interpreter next evaluates
`except (subprocess.CalledProcessError, subprocess.TimeoutExpired)`
(main.py line 159) — but main.py never imports `subprocess`, so this
evaluation raises NameError, which aborts the handler search: the remaining
clauses, including the catch-all at main.py lines 163-172 (the only place
that deletes `md_file` / `out_file`), never run, no file is deleted, and the
NameError reaches the global exception handler (main.py lines 175-184),
which answers with a generic 500. -/
def convertEndpoint (outDir uid tempDir ts : String) (refOk : Bool)
    (pandoc : PandocOutcome) : HttpResult × List String :=
  let mdFile := outDir ++ "/" ++ uid ++ ".md"
  let outFile := outDir ++ "/" ++ uid ++ ".docx"
  let r := renderMarkdownAsync outDir tempDir ts refOk pandoc
  let onDisk := mdFile :: r.files
  match r.result with
  | .ok p =>
    (.fileResponse outFile, (onDisk.filter (· ≠ p)) ++ [outFile])
  | .error (.valueError m) => (.httpError 400 m, onDisk)
  | .error _ => (.httpError 500 globalHandlerDetail, onDisk)

/- ------------------------------------------------------------------ -/
/- cleanup_old_files                                                   -/
/- ------------------------------------------------------------------ -/

/-- A directory entry as seen by `os.scandir` (name, regular-file flag,
modification time in seconds, size in bytes). -/
structure DirEntry where
  name : String
  isFile : Bool
  mtime : Int
  size : Nat
deriving DecidableEq, Repr

/-- EnhancedConverter._cleanup_file: remove the file iff its modification
time is strictly before the cutoff; returns the freed size. -/
def cleanupFile (cutoff : Int) (e : DirEntry) : Option Nat :=
  if e.mtime < cutoff then some e.size else none

/-- The scan loop of cleanup_old_files: every regular file is submitted to
_cleanup_file (the thread pool only parallelises these independent calls);
returns the removal count and the surviving entries. -/
def cleanupGo (cutoff : Int) : List DirEntry → Nat × List DirEntry
  | [] => (0, [])
  | e :: es =>
    let r := cleanupGo cutoff es
    if e.isFile then
      match cleanupFile cutoff e with
      | some _ => (r.1 + 1, r.2)
      | none => (r.1, e :: r.2)
    else (r.1, e :: r.2)

/-- EnhancedConverter.cleanup_old_files (lines 454-507):
`cutoff_time = datetime.now() - timedelta(hours=age_hours)`, modelled in
seconds. -/
def cleanupOldFiles (entries : List DirEntry) (now ageHours : Int) :
    Nat × List DirEntry :=
  cleanupGo (now - ageHours * 3600) entries

/-- Hexadecimal digit as produced by `uuid.uuid4().hex`. -/
def isHexDigit (c : Char) : Bool :=
  ('0' ≤ c && c ≤ '9') || ('a' ≤ c && c ≤ 'f')

/-- The generated-output naming patterns of this repository: converter
outputs `output_<timestamp>.<ext>` and endpoint files `<32-hex-uuid>.<ext>`
(spec section 6: "files named by a random unique token plus extension"). -/
def isGeneratedOutputName (s : String) : Bool :=
  let cs := s.data
  (begins (chs "output_") cs && containsSub ['.'] cs) ||
  (match findSub ['.'] cs with
   | some i => decide (i = 32) && (cs.take i).all isHexDigit
   | none => false)

/- ------------------------------------------------------------------ -/
/- RateLimiter                                                         -/
/- ------------------------------------------------------------------ -/

/-- The per-IP request map `self.requests` of RateLimiter, as an
association list from client IP to its recorded timestamps (seconds). -/
abbrev RequestMap := List (String × List Int)

/-- Dictionary lookup. -/
def lookupIp : RequestMap → String → Option (List Int)
  | [], _ => none
  | (k, v) :: m, ip => if k = ip then some v else lookupIp m ip

/-- Dictionary update. -/
def setIp : RequestMap → String → List Int → RequestMap
  | [], ip, v => [(ip, v)]
  | (k, w) :: m, ip, v =>
    if k = ip then (ip, v) :: m else (k, w) :: setIp m ip v

/-- The pruning `[ts for ts in self.requests[ip] if ts > minute_ago]`. -/
def pruneOld (minuteAgo : Int) (l : List Int) : List Int :=
  l.filter (fun ts => minuteAgo < ts)

/-- RateLimiter.is_rate_limited (main.py lines 44-57): on a missing key the
list is initialised empty, otherwise pruned to the last minute; a count at or
above the limit yields True with no timestamp appended, otherwise the current
time is appended and the verdict is False. -/
def isRateLimited (limit : Nat) (m : RequestMap) (ip : String) (now : Int) :
    Bool × RequestMap :=
  let cur : List Int :=
    match lookupIp m ip with
    | none => []
    | some l => pruneOld (now - 60) l
  if limit ≤ cur.length then (true, setIp m ip cur)
  else (false, setIp m ip (cur ++ [now]))

/-- A sequence of is_rate_limited calls `(ip, now)` starting from a map. -/
def runCalls (limit : Nat) : List (String × Int) → RequestMap → RequestMap
  | [], m => m
  | (ip, now) :: rest, m =>
    runCalls limit rest (isRateLimited limit m ip now).2

/- ------------------------------------------------------------------ -/
/- Document post-processor (apply_rtl_to_docx)                         -/
/- ------------------------------------------------------------------ -/

/-- An XML element of the main document part: tag and child elements.
Modelled from the spec: `apply_rtl_to_docx` is imported from app.converter by
test_rtl_conversion.py but absent from src/app/converter.py, so the document
post-processor (spec section 4.4) is modelled from the spec's words; the main
body part is the sequence of its block elements, with every paragraph element
tagged `w:p`, paragraph properties `w:pPr` and the bidirectional flag
`w:bidi`. -/
inductive El where
  | mk (tag : String) (kids : List El)

/-- The tag of an element. -/
def El.tagOf : El → String
  | .mk t _ => t

/-- The child elements of an element. -/
def El.kidsOf : El → List El
  | .mk _ k => k

/-- Tag test. -/
def isTag (t : String) (e : El) : Bool := e.tagOf = t

/-- Number of direct children with the given tag. -/
def countTag (t : String) (ks : List El) : Nat :=
  (ks.filter (isTag t)).length

/-- The bidirectional-flag element. -/
def bidiEl : El := .mk "w:bidi" []

/-- Modelled from the spec: "ensures that properties element has a
bidirectional-flag child as its first child (creating one if absent; never
duplicating if already present)". -/
def ensureBidi (pPr : El) : El :=
  match pPr with
  | .mk t k => if k.any (isTag "w:bidi") then .mk t k else .mk t (bidiEl :: k)

/-- Patch the first `w:pPr` child in place. -/
def patchFirstPPr : List El → List El
  | [] => []
  | e :: es =>
    if isTag "w:pPr" e then ensureBidi e :: es else e :: patchFirstPPr es

/-- Modelled from the spec: "for every paragraph element: ensures it has a
properties child element (creating one as the first child if absent), and
ensures that properties element has a bidirectional-flag child". -/
def patchParagraph (p : El) : El :=
  match p with
  | .mk t k =>
    if k.any (isTag "w:pPr") then .mk t (patchFirstPPr k)
    else .mk t (.mk "w:pPr" [bidiEl] :: k)

/-- Modelled from the spec: the document post-processor walks every paragraph
element of the main body part and patches it; all other elements are copied
unchanged. -/
def applyRtlToDocx (body : List El) : List El :=
  body.map (fun e => if isTag "w:p" e then patchParagraph e else e)

/-- Schema sanity of the input document: no properties element carries more
than one bidirectional flag (a well-formed converter output has zero). -/
def paraWf (p : El) : Bool :=
  p.kidsOf.all
    (fun k => ! isTag "w:pPr" k || decide (countTag "w:bidi" k.kidsOf ≤ 1))

/-- The claimed invariant for one paragraph: some properties child contains
exactly one bidirectional-flag child. -/
def paraHasBidi (p : El) : Bool :=
  p.kidsOf.any
    (fun k => isTag "w:pPr" k && decide (countTag "w:bidi" k.kidsOf = 1))

/-- Pointwise character expansion (the effect of the sequential
single-character replaces of apply_persian_typography). -/
def expandChars (f : Char → List Char) : List Char → List Char
  | [] => []
  | c :: cs => f c ++ expandChars f cs

/-- The aggregate substitution performed by the persian_punctuation loop. -/
def punctSubst (c : Char) : List Char :=
  if c = ',' then mojComma
  else if c = ';' then mojSemi
  else if c = '?' then mojQuestion
  else if c = '%' then mojPercent
  else [c]

/- ------------------------------------------------------------------ -/
/- Helper lemmas                                                       -/
/- ------------------------------------------------------------------ -/

theorem cleanupGo_spec (cutoff : Int) : ∀ entries : List DirEntry,
    cleanupGo cutoff entries =
      ((entries.filter (fun e => e.isFile && decide (e.mtime < cutoff))).length,
       entries.filter (fun e => ! (e.isFile && decide (e.mtime < cutoff)))) := by
  intro entries
  induction entries with
  | nil => rfl
  | cons e es ih =>
    simp only [cleanupGo, ih, cleanupFile]
    by_cases hf : e.isFile
    · by_cases hm : e.mtime < cutoff
      · simp [hf, hm, List.filter]
      · simp [hf, hm, List.filter]
    · simp [hf, List.filter]

theorem lookupIp_setIp_self : ∀ (m : RequestMap) (ip : String) (v : List Int),
    lookupIp (setIp m ip v) ip = some v := by
  intro m ip v
  induction m with
  | nil => simp [setIp, lookupIp]
  | cons kv m ih =>
    by_cases h : kv.1 = ip
    · simp [setIp, h, lookupIp]
    · simp [setIp, h, lookupIp, ih]

theorem lookupIp_setIp_ne : ∀ (m : RequestMap) (ip ip' : String)
    (v : List Int), ip' ≠ ip → lookupIp (setIp m ip v) ip' = lookupIp m ip' := by
  intro m ip ip' v hne
  have hip : ¬ ip = ip' := fun h => hne h.symm
  induction m with
  | nil => simp [setIp, lookupIp, hip]
  | cons kv m ih =>
    by_cases h : kv.1 = ip
    · simp [setIp, h, lookupIp, hip]
    · simp only [setIp, h, if_false, lookupIp]
      by_cases h2 : kv.1 = ip'
      · simp [h2]
      · simp [h2, ih]

theorem isRateLimited_preserves_bound (limit : Nat) (m : RequestMap)
    (ip : String) (now : Int)
    (h : ∀ j, ((lookupIp m j).getD []).length ≤ limit) :
    ∀ j, ((lookupIp (isRateLimited limit m ip now).2 j).getD []).length ≤
      limit := by
  intro j
  have hcur : (match lookupIp m ip with
      | none => ([] : List Int)
      | some l => pruneOld (now - 60) l).length ≤
      ((lookupIp m ip).getD []).length := by
    cases hm : lookupIp m ip with
    | none => simp
    | some l => simpa [pruneOld] using List.length_filter_le _ l
  by_cases hj : j = ip
  · subst hj
    simp only [isRateLimited]
    split
    · next hge =>
      rw [lookupIp_setIp_self]
      exact le_trans (by simpa using hcur) (h j)
    · next hlt =>
      rw [lookupIp_setIp_self]
      simp only [Option.getD_some, List.length_append, List.length_singleton]
      omega
  · simp only [isRateLimited]
    split
    · rw [lookupIp_setIp_ne _ _ _ _ hj]; exact h j
    · rw [lookupIp_setIp_ne _ _ _ _ hj]; exact h j

theorem runCalls_preserves_bound (limit : Nat) :
    ∀ (calls : List (String × Int)) (m : RequestMap),
    (∀ j, ((lookupIp m j).getD []).length ≤ limit) →
    ∀ j, ((lookupIp (runCalls limit calls m) j).getD []).length ≤ limit := by
  intro calls
  induction calls with
  | nil => intro m h j; exact h j
  | cons c rest ih =>
    intro m h j
    exact ih _ (isRateLimited_preserves_bound limit m c.1 c.2 h) j

/- ------------------------------------------------------------------ -/
/- Claims                                                              -/
/- ------------------------------------------------------------------ -/

/-- C9 (amended): the background cleanup sweep deletes exactly the regular
files whose modification time is strictly older than the cutoff
`now - age_hours * 3600`, regardless of their name: the survivors are the
entries that are not regular files or are at least as new as the cutoff, and
the removal count is the number of old regular files.  No naming-pattern
check is involved. -/
theorem C9_cleanup_deletes_by_age_only :
    ∀ (entries : List DirEntry) (now ageHours : Int),
      (cleanupOldFiles entries now ageHours).2 =
        entries.filter
          (fun e => ! (e.isFile && decide (e.mtime < now - ageHours * 3600))) ∧
      (cleanupOldFiles entries now ageHours).1 =
        (entries.filter
          (fun e => e.isFile && decide (e.mtime < now - ageHours * 3600))).length := by
  intro entries now ageHours
  rw [cleanupOldFiles, cleanupGo_spec]
  exact ⟨rfl, rfl⟩

/-- C9 (counterexample): a regular file named `README`, which does not match
the generated-output naming pattern, is nevertheless deleted by the sweep as
soon as it is older than the cutoff — refuting "it never deletes any file in
the output directory that does not match the generated-output naming
pattern". -/
theorem C9_counterexample :
    isGeneratedOutputName "README" = false ∧
    cleanupOldFiles [⟨"README", true, 0, 17⟩] 1000000 24 = (1, []) := by
  constructor
  · decide
  · rfl

/-- C10: starting from the empty request map of a fresh RateLimiter, after any
sequence of is_rate_limited calls every client's stored timestamp list has
length at most the configured limit; moreover a single call stores exactly
the pruned list when it returns True (no timestamp appended) and the pruned
list extended by exactly the current timestamp when it returns False. -/
theorem C10_rate_limiter_list_bounded :
    (∀ (limit : Nat) (calls : List (String × Int)) (ip : String),
      ((lookupIp (runCalls limit calls []) ip).getD []).length ≤ limit) ∧
    (∀ (limit : Nat) (m : RequestMap) (ip : String) (now : Int),
      lookupIp (isRateLimited limit m ip now).2 ip =
        some (if (isRateLimited limit m ip now).1 then
                match lookupIp m ip with
                | none => []
                | some l => pruneOld (now - 60) l
              else
                (match lookupIp m ip with
                 | none => []
                 | some l => pruneOld (now - 60) l) ++ [now]) ∧
      (isRateLimited limit m ip now).1 =
        decide (limit ≤ (match lookupIp m ip with
                         | none => ([] : List Int)
                         | some l => pruneOld (now - 60) l).length)) := by
  constructor
  · intro limit calls ip
    exact runCalls_preserves_bound limit calls []
      (by intro j; simp [lookupIp]) ip
  · intro limit m ip now
    simp only [isRateLimited]
    split
    · next hge =>
      refine ⟨?_, by simp [decide_eq_true hge]⟩
      rw [lookupIp_setIp_self]
      simp
    · next hlt =>
      refine ⟨?_, by simp [hlt]⟩
      rw [lookupIp_setIp_self]
      simp

theorem runFirstSteps_nil : ∀ (k : Nat) (t : List Char),
    runFirstSteps [] k t = t := by
  intro k t
  cases k <;> rfl

theorem runFirstSteps_cons (f : List Char → List Char)
    (fs : List (List Char → List Char)) (m : Nat) (t : List Char) :
    runFirstSteps (f :: fs) (m + 1) t = runFirstSteps fs m (f t) := rfl

theorem runFirstSteps_ge : ∀ (fs : List (List Char → List Char)) (k : Nat)
    (t : List Char),
    runFirstSteps fs (fs.length + k) t = runFirstSteps fs fs.length t := by
  intro fs
  induction fs with
  | nil => intro k t; rw [runFirstSteps_nil, runFirstSteps_nil]
  | cons f fs ih =>
    intro k t
    have h1 : (f :: fs).length + k = (fs.length + k) + 1 := by
      simp [List.length_cons]; omega
    have h2 : (f :: fs).length = fs.length + 1 := by simp
    rw [h1, h2, runFirstSteps_cons, runFirstSteps_cons, ih]

/-- C3 (amended): preprocess_text never propagates an exception from its six
steps; when the first step (Unicode normalization) fails the original input
is returned unmodified, and when no step fails the full pipeline output is
returned — but a failure in a later step returns the intermediate text
produced by the already-completed steps, not the original input. -/
theorem C3_failure_returns_current_text :
    (∀ (nfkc : List Char → List Char) (t : List Char),
      preprocessTextFailingAt nfkc 0 t = t) ∧
    (∀ (nfkc : List Char → List Char) (k : Nat) (t : List Char),
      preprocessTextFailingAt nfkc (k + 6) t = preprocessText nfkc t) := by
  constructor
  · intro nfkc t; rfl
  · intro nfkc k t
    show runFirstSteps (preprocessSteps nfkc) (k + 6) t =
      runFirstSteps (preprocessSteps nfkc) 6 t
    have h1 : k + 6 = (preprocessSteps nfkc).length + k := by
      simp [preprocessSteps]; omega
    have h2 : (preprocessSteps nfkc).length = 6 := rfl
    rw [h1, runFirstSteps_ge, h2]

/-- C3 (counterexample): if the third step (apply_persian_typography) raises,
preprocess_text returns the text already transformed by the two completed
steps — the RTL metadata header has been prepended — which is not the
original input.  The external Unicode-normalization step is instantiated with
the identity, which agrees with NFKC on the ASCII input used here. -/
theorem C3_counterexample :
    preprocessTextFailingAt id 2 (chs "x") =
      chs "---\nlang: fa\ndir: rtl\n---\n\nx" ∧
    preprocessTextFailingAt id 2 (chs "x") ≠ chs "x" := by
  exact ⟨by decide, by decide⟩

theorem replaceCharAll_eq_expand (k : Char) (rep : List Char) :
    ∀ cs, replaceCharAll k rep cs =
      expandChars (fun c => if c = k then rep else [c]) cs := by
  intro cs
  induction cs with
  | nil => rfl
  | cons c cs ih => simp [replaceCharAll, expandChars, ih]

theorem expandChars_append (f : Char → List Char) :
    ∀ a b, expandChars f (a ++ b) = expandChars f a ++ expandChars f b := by
  intro a b
  induction a with
  | nil => rfl
  | cons c a ih => simp [expandChars, ih]

theorem expandChars_expandChars (g f : Char → List Char) :
    ∀ cs, expandChars g (expandChars f cs) =
      expandChars (fun c => expandChars g (f c)) cs := by
  intro cs
  induction cs with
  | nil => rfl
  | cons c cs ih => simp [expandChars, expandChars_append, ih]

theorem expandChars_congr (f g : Char → List Char) (h : ∀ c, f c = g c) :
    ∀ cs, expandChars f cs = expandChars g cs := by
  intro cs
  induction cs with
  | nil => rfl
  | cons c cs ih => simp [expandChars, h c, ih]

theorem applyPersianPunct_eq_expand :
    ∀ cs, applyPersianPunct cs = expandChars punctSubst cs := by
  intro cs
  show replaceCharAll '%' mojPercent (replaceCharAll '?' mojQuestion
    (replaceCharAll ';' mojSemi (replaceCharAll ',' mojComma cs))) = _
  rw [replaceCharAll_eq_expand, replaceCharAll_eq_expand,
    replaceCharAll_eq_expand, replaceCharAll_eq_expand,
    expandChars_expandChars, expandChars_expandChars, expandChars_expandChars]
  apply expandChars_congr
  intro c
  by_cases h1 : c = ','
  · subst h1; decide
  · by_cases h2 : c = ';'
    · subst h2; decide
    · by_cases h3 : c = '?'
      · subst h3; decide
      · by_cases h4 : c = '%'
        · subst h4; decide
        · simp [expandChars, punctSubst, h1, h2, h3, h4]

/-- C4 (amended): the punctuation-substitution step acts as a uniform
character substitution over the entire text, fenced code blocks included: it
distributes over any decomposition pre ++ fence ++ mid ++ fence ++ post and
replaces the comma inside the fence exactly as outside.  Only the bidi
wrapper protects fenced blocks; the punctuation substitution does not, so
fenced content containing a targeted character is altered. -/
theorem C4_punctuation_ignores_fences :
    (∀ cs, applyPersianPunct cs = expandChars punctSubst cs) ∧
    (∀ pre mid post : List Char,
      applyPersianPunct (pre ++ chs "```" ++ mid ++ chs "```" ++ post) =
        applyPersianPunct pre ++ chs "```" ++ applyPersianPunct mid ++
          chs "```" ++ applyPersianPunct post) ∧
    punctSubst ',' = mojComma ∧ mojComma ≠ [','] := by
  refine ⟨applyPersianPunct_eq_expand, ?_, by decide, by decide⟩
  intro pre mid post
  rw [applyPersianPunct_eq_expand, applyPersianPunct_eq_expand,
    applyPersianPunct_eq_expand, applyPersianPunct_eq_expand,
    expandChars_append, expandChars_append, expandChars_append,
    expandChars_append]
  have hf : expandChars punctSubst (chs "```") = chs "```" := by decide
  rw [hf]

/-- C4 (counterexample): the single fenced code block with content "a,b",
run through the full preprocessing pipeline, yields an output in which the
fenced content no longer occurs — the punctuation substitution (and the
spacing rule after it) rewrote the characters inside the fence.  The
typography step alone already alters the text. -/
theorem C4_counterexample :
    containsSub (chs "a,b") (chs "```\na,b\n```") = true ∧
    containsSub (chs "a,b") (preprocessText id (chs "```\na,b\n```")) = false ∧
    applyPersianTypography (chs "```\na,b\n```") ≠ chs "```\na,b\n```" := by
  exact ⟨by decide, by decide, by decide⟩

/-- C7 (amended): double application of the normalizer equals single
application only when the pipeline inserts no direction markers; it holds for
the pure-Persian document "سلام" (whose single run needs no marker), while a
mixed-language input breaks it because the inserted marker contains straight
double quotes that the second pass's quote rule rewrites. -/
theorem C7_idempotent_on_marker_free_input :
    preprocessText id (preprocessText id (chs "سلام")) =
      preprocessText id (chs "سلام") := by decide

/-- C7 (counterexample): the input "ب hi" is free of straight quotes and of
the raw Latin punctuation targeted by the substitution rules (comma,
semicolon, question mark, percent), yet the normalizer is not idempotent on
it: the first pass wraps "hi" in a direction marker whose straight double
quotes the second pass's quote-substitution rewrites. -/
theorem C7_counterexample :
    (chs "ب hi").all (fun c =>
      decide (c ≠ '"') && decide (c ≠ Char.ofNat 39) && decide (c ≠ ',') &&
      decide (c ≠ ';') && decide (c ≠ '?') && decide (c ≠ '%')) = true ∧
    preprocessText id (preprocessText id (chs "ب hi")) ≠
      preprocessText id (chs "ب hi") := by
  exact ⟨by decide, by decide⟩

theorem countTag_cons (t : String) (x : El) (k : List El) :
    countTag t (x :: k) =
      if isTag t x then countTag t k + 1 else countTag t k := by
  simp only [countTag, List.filter_cons]
  by_cases h : isTag t x
  · simp [h]
  · simp [h]

theorem any_tag_pos (t : String) : ∀ (k : List El),
    k.any (isTag t) = true ↔ 0 < countTag t k := by
  intro k
  induction k with
  | nil => simp [countTag]
  | cons e es ih =>
    rw [countTag_cons]
    by_cases h : isTag t e
    · simp [h]
    · simp [h, ih]

theorem ensureBidi_tag (e : El) : (ensureBidi e).tagOf = e.tagOf := by
  cases e with
  | mk t k =>
    simp only [ensureBidi]
    split <;> rfl

theorem ensureBidi_count (e : El)
    (h : countTag "w:bidi" e.kidsOf ≤ 1) :
    countTag "w:bidi" (ensureBidi e).kidsOf = 1 := by
  cases e with
  | mk t k =>
    simp only [ensureBidi]
    split
    · next hb =>
      have := (any_tag_pos "w:bidi" k).mp hb
      simp only [El.kidsOf] at h ⊢
      omega
    · next hb =>
      have : ¬ (0 < countTag "w:bidi" k) := fun hp =>
        hb ((any_tag_pos "w:bidi" k).mpr hp)
      simp only [El.kidsOf, countTag_cons]
      have hz : countTag "w:bidi" k = 0 := by omega
      simp [isTag, bidiEl, El.tagOf, hz]

theorem ensureBidi_hasBidi (e : El) :
    (ensureBidi e).kidsOf.any (isTag "w:bidi") = true := by
  cases e with
  | mk t k =>
    simp only [ensureBidi]
    split
    · next hb => simpa [El.kidsOf] using hb
    · simp [El.kidsOf, List.any, isTag, bidiEl, El.tagOf]

theorem ensureBidi_idem (e : El) : ensureBidi (ensureBidi e) = ensureBidi e := by
  have h := ensureBidi_hasBidi e
  cases he : ensureBidi e with
  | mk t k =>
    rw [he] at h
    simp only [El.kidsOf] at h
    simp [ensureBidi, h]

theorem patchFirstPPr_anyTag (t : String) : ∀ (k : List El),
    (patchFirstPPr k).any (isTag t) = k.any (isTag t) := by
  intro k
  induction k with
  | nil => rfl
  | cons e es ih =>
    simp only [patchFirstPPr]
    split
    · next hp =>
      simp only [List.any_cons]
      have : isTag t (ensureBidi e) = isTag t e := by
        simp [isTag, ensureBidi_tag]
      rw [this]
    · simp [List.any_cons, ih]

theorem patchFirstPPr_good : ∀ (k : List El),
    k.any (isTag "w:pPr") = true →
    k.all (fun x => ! isTag "w:pPr" x ||
      decide (countTag "w:bidi" x.kidsOf ≤ 1)) = true →
    (patchFirstPPr k).any
      (fun x => isTag "w:pPr" x && decide (countTag "w:bidi" x.kidsOf = 1)) =
      true := by
  intro k
  induction k with
  | nil => intro h; cases h
  | cons e es ih =>
    intro hany hall
    simp only [List.all_cons, Bool.and_eq_true] at hall
    simp only [patchFirstPPr]
    split
    · next hp =>
      have hp' : e.tagOf = "w:pPr" := by simpa [isTag] using hp
      have hle : countTag "w:bidi" e.kidsOf ≤ 1 := by
        have := hall.1
        rw [hp] at this
        simpa using this
      simp only [List.any_cons, Bool.or_eq_true]
      left
      have ht : isTag "w:pPr" (ensureBidi e) = true := by
        simp [isTag, ensureBidi_tag, hp']
      simp [ht, ensureBidi_count e hle]
    · next hp =>
      simp only [List.any_cons, Bool.or_eq_true]
      right
      apply ih
      · simp only [List.any_cons, Bool.or_eq_true] at hany
        rcases hany with h | h
        · exact absurd h hp
        · exact h
      · exact hall.2

theorem patchFirstPPr_idem : ∀ (k : List El),
    k.any (isTag "w:pPr") = true →
    patchFirstPPr (patchFirstPPr k) = patchFirstPPr k := by
  intro k
  induction k with
  | nil => intro h; cases h
  | cons e es ih =>
    intro hany
    simp only [patchFirstPPr]
    split
    · next hp =>
      have hp' : e.tagOf = "w:pPr" := by simpa [isTag] using hp
      have ht : isTag "w:pPr" (ensureBidi e) = true := by
        simp [isTag, ensureBidi_tag, hp']
      simp [patchFirstPPr, ht, ensureBidi_idem]
    · next hp =>
      have hany' : es.any (isTag "w:pPr") = true := by
        simp only [List.any_cons, Bool.or_eq_true] at hany
        rcases hany with h | h
        · exact absurd h hp
        · exact h
      simp [patchFirstPPr, hp, ih hany']

theorem patchParagraph_tag (p : El) :
    (patchParagraph p).tagOf = p.tagOf := by
  cases p with
  | mk t k =>
    simp only [patchParagraph]
    split <;> rfl

theorem patchParagraph_good (p : El) (h : paraWf p = true) :
    paraHasBidi (patchParagraph p) = true := by
  cases p with
  | mk t k =>
    simp only [patchParagraph]
    split
    · next hp =>
      simp only [paraHasBidi, El.kidsOf]
      exact patchFirstPPr_good k hp (by simpa [paraWf, El.kidsOf] using h)
    · simp [paraHasBidi, El.kidsOf, List.any_cons, isTag, El.tagOf,
        countTag_cons, countTag, bidiEl]

theorem patchParagraph_idem (p : El) :
    patchParagraph (patchParagraph p) = patchParagraph p := by
  cases p with
  | mk t k =>
    by_cases hp : k.any (isTag "w:pPr") = true
    · have h1 : patchParagraph (El.mk t k) = El.mk t (patchFirstPPr k) := by
        simp [patchParagraph, hp]
      have hany : (patchFirstPPr k).any (isTag "w:pPr") = true := by
        rw [patchFirstPPr_anyTag]; exact hp
      rw [h1]
      simp [patchParagraph, El.kidsOf, hany, patchFirstPPr_idem k hp]
    · have h1 : patchParagraph (El.mk t k) =
          El.mk t (El.mk "w:pPr" [bidiEl] :: k) := by
        simp [patchParagraph, hp]
      rw [h1]
      have hpPr : isTag "w:pPr" (El.mk "w:pPr" [bidiEl]) = true := by decide
      have hens : ensureBidi (El.mk "w:pPr" [bidiEl]) =
          El.mk "w:pPr" [bidiEl] := by rfl
      have hany2 : (El.mk "w:pPr" [bidiEl] :: k).any (isTag "w:pPr") =
          true := by
        simp [List.any_cons, hpPr]
      simp [patchParagraph, El.kidsOf, hany2, patchFirstPPr, hpPr, hens]

/-- C1: the document post-processor (modelled from the spec, since
apply_rtl_to_docx is imported by test_rtl_conversion.py but absent from
src/app/converter.py) establishes the invariant — for a body whose
properties elements carry at most one bidirectional flag, every paragraph
element ends up with a properties child containing exactly one
bidirectional-flag child — and it is idempotent: re-running it changes
nothing, so the flag is never duplicated. -/
theorem C1_postprocessor_invariant_and_idempotent :
    ∀ (body : List El),
      body.all (fun e => ! isTag "w:p" e || paraWf e) = true →
      (applyRtlToDocx body).all
        (fun e => ! isTag "w:p" e || paraHasBidi e) = true ∧
      applyRtlToDocx (applyRtlToDocx body) = applyRtlToDocx body := by
  intro body
  induction body with
  | nil => intro _; exact ⟨rfl, rfl⟩
  | cons e es ih =>
    intro h
    simp only [List.all_cons, Bool.and_eq_true] at h
    obtain ⟨he, hes⟩ := h
    obtain ⟨ih1, ih2⟩ := ih hes
    constructor
    · simp only [applyRtlToDocx, List.map_cons, List.all_cons,
        Bool.and_eq_true]
      refine ⟨?_, by simpa [applyRtlToDocx] using ih1⟩
      by_cases hp : isTag "w:p" e
      · rw [if_pos hp]
        have hwf : paraWf e = true := by
          rw [hp] at he; simpa using he
        have ht : isTag "w:p" (patchParagraph e) = isTag "w:p" e := by
          simp [isTag, patchParagraph_tag]
        simp [ht, hp, patchParagraph_good e hwf]
      · simp [hp, he]
    · simp only [applyRtlToDocx, List.map_cons, List.cons.injEq]
      constructor
      · by_cases hp : isTag "w:p" e
        · have ht : isTag "w:p" (patchParagraph e) = isTag "w:p" e := by
            simp [isTag, patchParagraph_tag]
          simp [hp, ht, patchParagraph_idem]
        · simp [hp]
      · simpa [applyRtlToDocx] using ih2

/-- C1 (witness): the theorem at a concrete body with a paragraph without
properties, one with empty properties, one already carrying the flag, and a
non-paragraph element. -/
theorem C1_witness :
    ([El.mk "w:p" [], El.mk "w:p" [El.mk "w:pPr" []],
      El.mk "w:p" [El.mk "w:pPr" [El.mk "w:bidi" []]],
      El.mk "w:sectPr" []].all (fun e => ! isTag "w:p" e || paraWf e))
      = true ∧
    (applyRtlToDocx [El.mk "w:p" [], El.mk "w:p" [El.mk "w:pPr" []],
      El.mk "w:p" [El.mk "w:pPr" [El.mk "w:bidi" []]],
      El.mk "w:sectPr" []]).all
        (fun e => ! isTag "w:p" e || paraHasBidi e) = true ∧
    applyRtlToDocx (applyRtlToDocx [El.mk "w:p" [],
      El.mk "w:p" [El.mk "w:pPr" []],
      El.mk "w:p" [El.mk "w:pPr" [El.mk "w:bidi" []]],
      El.mk "w:sectPr" []]) =
      applyRtlToDocx [El.mk "w:p" [], El.mk "w:p" [El.mk "w:pPr" []],
        El.mk "w:p" [El.mk "w:pPr" [El.mk "w:bidi" []]],
        El.mk "w:sectPr" []] :=
  ⟨by decide,
   (C1_postprocessor_invariant_and_idempotent _ (by decide)).1,
   (C1_postprocessor_invariant_and_idempotent _ (by decide)).2⟩

theorem stripRight_cons_cases (d : Char) (m : List Char) :
    stripRight (d :: m) = [] ∨ ∃ r, stripRight (d :: m) = d :: r := by
  simp only [stripRight]
  cases h : stripRight m with
  | nil =>
    by_cases hw : pyWs d
    · left; simp [hw]
    · right; exact ⟨[], by simp [hw]⟩
  | cons x xs => right; exact ⟨x :: xs, rfl⟩

theorem stripLeft_head_not_ws : ∀ (l : List Char) (c : Char) (r : List Char),
    stripLeft l = c :: r → pyWs c = false := by
  intro l
  induction l with
  | nil => intro c r h; cases h
  | cons d m ih =>
    intro c r h
    by_cases hw : pyWs d
    · exact ih c r (by simpa [stripLeft, List.dropWhile, hw] using h)
    · simp only [stripLeft, List.dropWhile, hw] at h
      cases h
      simpa using hw

theorem pyStrip_head_not_ws (l : List Char) (c : Char) (r : List Char)
    (h : pyStrip l = c :: r) : pyWs c = false := by
  rw [pyStrip] at h
  cases hl : stripLeft l with
  | nil => rw [hl] at h; cases h
  | cons d m =>
    rw [hl] at h
    rcases stripRight_cons_cases d m with h2 | ⟨r', h2⟩
    · rw [h2] at h; cases h
    · rw [h2] at h
      cases h
      exact stripLeft_head_not_ws l _ _ hl

theorem begins_four_spaces_strip (l : List Char) :
    begins (chs "    ") (pyStrip l) = false := by
  cases hs : pyStrip l with
  | nil => decide
  | cons c r =>
    have hc : pyWs c = false := pyStrip_head_not_ws l c r hs
    have hcs : ¬ (' ' = c) := by
      intro h
      rw [← h] at hc
      simp [pyWs] at hc
    have h4 : chs "    " = ' ' :: chs "   " := rfl
    rw [h4]
    simp [begins, hcs]

theorem tryCodeBlock_none (c : Char) (cs : List Char) (h : ¬ c = btick) :
    tryCodeBlock (c :: cs) = none := by
  have hbc : ¬ (btick = c) := fun hc => h hc.symm
  have hb : begins (chs "```") (c :: cs) = false := by
    have h3 : chs "```" = btick :: chs "``" := rfl
    rw [h3]
    simp [begins, hbc]
  simp [tryCodeBlock, hb]

theorem tryInlineCode_none (c : Char) (cs : List Char) (h : ¬ c = btick) :
    tryInlineCode (c :: cs) = none := by
  simp [tryInlineCode, h]

theorem protectGo_id (tryM : List Char → Option Nat)
    (hM : ∀ c cs, ¬ c = btick → tryM (c :: cs) = none) :
    ∀ (fuel : Nat) (l : List Char) (blocks : List (List Char)),
      l.all (fun c => decide (¬ c = btick)) = true →
      protectGo tryM fuel l blocks = (l, blocks) := by
  intro fuel
  induction fuel with
  | zero => intro l blocks _; cases l <;> rfl
  | succ f ih =>
    intro l blocks hl
    cases l with
    | nil => rfl
    | cons c rest =>
      simp only [List.all_cons, Bool.and_eq_true, decide_eq_true_eq] at hl
      simp only [protectGo, hM c rest hl.1,
        ih rest blocks (by simpa using hl.2)]

theorem splitNl_no_newline : ∀ (l : List Char),
    l.all (fun c => decide (¬ c = '\n')) = true → splitNl l = [l] := by
  intro l
  induction l with
  | nil => intro _; rfl
  | cons c cs ih =>
    intro h
    simp only [List.all_cons, Bool.and_eq_true, decide_eq_true_eq] at h
    simp only [splitNl, h.1, if_false]
    rw [ih (by simpa using h.2)]

theorem contains_tripletick_false : ∀ (l : List Char),
    l.all (fun c => decide (¬ c = btick)) = true →
    containsSub (chs "```") l = false := by
  intro l
  induction l with
  | nil => intro _; decide
  | cons c cs ih =>
    intro h
    simp only [List.all_cons, Bool.and_eq_true, decide_eq_true_eq] at h
    have hbc : ¬ (btick = c) := fun hc => h.1 hc.symm
    have hb : begins (chs "```") (c :: cs) = false := by
      have h3 : chs "```" = btick :: chs "``" := rfl
      rw [h3]
      simp [begins, hbc]
    simp only [containsSub, hb, Bool.false_or]
    exact ih (by simpa using h.2)

/-- The opposite language class. -/
def otherLang : SpanLang → SpanLang
  | .fa => .en
  | .en => .fa

theorem spanLang_other (l excl : SpanLang) (h : ¬ l = excl) :
    l = otherLang excl := by
  cases l <;> cases excl <;> first | rfl | exact absurd rfl h

theorem detectGo_single_class (excl : SpanLang) :
    ∀ (cs : List Char) (i st : Nat) (acc : List Char)
      (cur : Option SpanLang) (spans : List LangSpan),
      cs.all (fun c => decide (¬ classify c = some excl)) = true →
      (cur = none ∨ cur = some (otherLang excl)) →
      (detectGo cs i st acc cur spans).length ≤ spans.length + 1 := by
  intro cs
  induction cs with
  | nil =>
    intro i st acc cur spans _ _
    simp only [detectGo]
    by_cases h1 : acc = []
    · simp [h1]
    · by_cases h2 : pyStrip acc = []
      · simp [h1, h2]
      · simp [h1, h2]
  | cons c rest ih =>
    intro i st acc cur spans hall hcur
    simp only [List.all_cons, Bool.and_eq_true, decide_eq_true_eq] at hall
    have hrest := hall.2
    have hc := hall.1
    have hcl : (match classify c with
        | some l => some l
        | none => cur) = none ∨
        (match classify c with
        | some l => some l
        | none => cur) = some (otherLang excl) := by
      cases hcls : classify c with
      | none => simpa using hcur
      | some l =>
        right
        simp only []
        rw [spanLang_other l excl (by rw [hcls] at hc; simpa using hc)]
    rcases hcur with hn | ho
    · subst hn
      simp only [detectGo]
      exact ih (i + 1) st (acc ++ [c]) _ spans (by simpa using hrest) hcl
    · subst ho
      simp only [detectGo]
      have hcle : (match classify c with
          | some l => some l
          | none => some (otherLang excl)) = some (otherLang excl) := by
        rcases hcl with h | h
        · cases hcls : classify c with
          | none => rfl
          | some l => rw [hcls] at h; cases h
        · exact h
      rw [hcle, if_pos rfl]
      exact ih (i + 1) st (acc ++ [c]) _ spans (by simpa using hrest)
        (Or.inr rfl)

theorem detect_single_class (excl : SpanLang) (line : List Char)
    (h : line.all (fun c => decide (¬ classify c = some excl)) = true) :
    (detectLanguageSpans line).length ≤ 1 := by
  simpa using detectGo_single_class excl line 0 0 [] none [] h (Or.inl rfl)

theorem pyWs_classify (c : Char) (h : pyWs c = true) : classify c = none := by
  simp only [pyWs, Bool.or_eq_true, decide_eq_true_eq] at h
  rcases h with ⟨⟨⟨⟨h | h⟩ | h⟩ | h⟩ | h⟩ | h <;> subst h <;> decide

theorem stripNil_of_allWs : ∀ (l : List Char), l.all pyWs = true →
    pyStrip l = [] := by
  intro l
  induction l with
  | nil => intro _; rfl
  | cons c cs ih =>
    intro h
    simp only [List.all_cons, Bool.and_eq_true] at h
    simp only [pyStrip, stripLeft, List.dropWhile, h.1]
    simpa [pyStrip, stripLeft] using ih h.2

theorem allWs_of_stripNil : ∀ (l : List Char), pyStrip l = [] →
    l.all pyWs = true := by
  intro l
  induction l with
  | nil => intro _; rfl
  | cons c cs ih =>
    intro h
    by_cases hw : pyWs c
    · simp only [pyStrip, stripLeft, List.dropWhile, hw] at h
      simp [hw, ih (by simpa [pyStrip, stripLeft] using h)]
    · simp only [pyStrip, stripLeft, List.dropWhile, hw, if_neg] at h
      cases hsr : stripRight cs with
      | nil =>
        simp only [stripRight, hsr] at h
        rw [if_neg hw] at h
        cases h
      | cons x xs =>
        simp only [stripRight, hsr] at h
        cases h

theorem detectGo_allWs : ∀ (cs : List Char) (i st : Nat) (acc : List Char)
    (spans : List LangSpan), cs.all pyWs = true → acc.all pyWs = true →
    detectGo cs i st acc none spans = spans := by
  intro cs
  induction cs with
  | nil =>
    intro i st acc spans _ hacc
    simp only [detectGo]
    by_cases h1 : acc = []
    · simp [h1]
    · rw [if_neg h1, if_pos (stripNil_of_allWs acc hacc)]
  | cons c rest ih =>
    intro i st acc spans hall hacc
    simp only [List.all_cons, Bool.and_eq_true] at hall
    have hcl : classify c = none := pyWs_classify c hall.1
    simp only [detectGo, hcl]
    exact ih _ _ _ _ hall.2 (by simp [List.all_append, hacc, hall.1])

theorem detect_nil_of_stripNil (line : List Char) (h0 : pyStrip line = []) :
    detectLanguageSpans line = [] :=
  detectGo_allWs line 0 0 [] [] (allWs_of_stripNil line h0) rfl

theorem wrapLtrContent_single (line : List Char)
    (h1 : line.all (fun c => decide (¬ c = btick)) = true)
    (h2 : line.all (fun c => decide (¬ c = '\n')) = true)
    (h3 : applyLtrTerms line = line) :
    wrapLtrContent line = wrapLine line := by
  have hp1 : protectGo tryCodeBlock line.length line [] = (line, []) :=
    protectGo_id tryCodeBlock (fun c cs h => tryCodeBlock_none c cs h)
      line.length line [] h1
  have hp2 : protectGo tryInlineCode line.length line [] = (line, []) :=
    protectGo_id tryInlineCode (fun c cs h => tryInlineCode_none c cs h)
      line.length line [] h1
  unfold wrapLtrContent
  rw [hp1]
  simp only []
  rw [hp2]
  simp only []
  rw [h3, splitNl_no_newline line h2]
  rfl

theorem wrapLine_single_class (excl : SpanLang) (line : List Char)
    (h : line.all (fun c => decide (¬ classify c = some excl)) = true) :
    wrapLine line = line := by
  simp only [wrapLine]
  by_cases h0 : pyStrip line = []
  · simp [h0]
  · rw [if_neg h0]
    by_cases hskip : (containsSub (chs "```") line ||
        begins (chs "    ") (pyStrip line) ||
        containsSub (chs "<span dir=") line || begins (chs "#") line) = true
    · simp [hskip]
    · simp only [Bool.not_eq_true] at hskip
      simp only [hskip, Bool.false_eq_true, if_false]
      have hb := detect_single_class excl line h
      have hlt : ¬ (1 < (detectLanguageSpans line).length) := by omega
      simp [hlt]

theorem foldl_render_acc : ∀ (spans : List LangSpan) (acc : List Char),
    spans.foldl
      (fun r sp =>
        r ++ (if sp.lang = .en && decide (1 < (pyStrip sp.text).length) then
                spanOpen ++ sp.text ++ spanClose
              else sp.text)) acc = acc ++ renderSpans spans := by
  intro spans
  induction spans with
  | nil => intro acc; simp [renderSpans]
  | cons x l ih =>
    intro acc
    rw [List.foldl_cons]
    rw [ih]
    have hr : renderSpans (x :: l) =
        (if x.lang = .en && decide (1 < (pyStrip x.text).length) then
          spanOpen ++ x.text ++ spanClose
         else x.text) ++ renderSpans l := by
      show List.foldl _ [] (x :: l) = _
      rw [List.foldl_cons, ih]
      simp
    rw [hr, List.append_assoc]

theorem begins_append_self : ∀ (n rest : List Char),
    begins n (n ++ rest) = true := by
  intro n
  induction n with
  | nil => intro rest; rfl
  | cons p ps ih => intro rest; simp [begins, ih]

theorem contains_of_begins (n t : List Char) (h : begins n t = true) :
    containsSub n t = true := by
  cases t with
  | nil => simpa [containsSub] using h
  | cons c cs => simp [containsSub, h]

theorem contains_append_right : ∀ (n pre t : List Char),
    containsSub n t = true → containsSub n (pre ++ t) = true := by
  intro n pre
  induction pre with
  | nil => intro t h; simpa using h
  | cons c pre' ih =>
    intro t h
    simp only [List.cons_append, containsSub, Bool.or_eq_true]
    right
    exact ih t h

theorem mem_render_contains : ∀ (spans : List LangSpan) (sp : LangSpan),
    sp ∈ spans → sp.lang = .en → 1 < (pyStrip sp.text).length →
    containsSub (spanOpen ++ sp.text ++ spanClose) (renderSpans spans) =
      true := by
  intro spans
  induction spans with
  | nil => intro sp h; cases h
  | cons x l ih =>
    intro sp hmem hlang hlen
    have hrw : renderSpans (x :: l) =
        (if x.lang = .en && decide (1 < (pyStrip x.text).length) then
          spanOpen ++ x.text ++ spanClose
         else x.text) ++ renderSpans l := by
      show List.foldl _ [] (x :: l) = _
      rw [List.foldl_cons, foldl_render_acc]
      simp
    cases hmem with
    | head =>
      rw [hrw]
      have hcond : (x.lang = .en &&
          decide (1 < (pyStrip x.text).length)) = true := by
        simp [hlang, hlen]
      rw [if_pos hcond]
      exact contains_of_begins _ _ (begins_append_self _ _)
    | tail _ hm =>
      rw [hrw]
      exact contains_append_right _ _ _ (ih sp hm hlang hlen)

/-- C5 (amended): for any single line whose characters all belong to one
language class out of Persian / Latin (plus neutrals), the bidi span wrapper
returns the line unchanged — provided the line contains no backtick (so the
code-protection passes leave it alone) and none of the fixed technical-term
patterns matches it (the term pass leaves it unchanged).  A term match or an
inline-code fragment makes the wrapper add markers even to a single-class
line. -/
theorem C5_single_class_line_unchanged (line : List Char)
    (h1 : line.all (fun c => decide (¬ c = btick)) = true)
    (h2 : line.all (fun c => decide (¬ c = '\n')) = true)
    (h3 : applyLtrTerms line = line)
    (h4 : line.all (fun c => decide (¬ classify c = some SpanLang.en)) = true ∨
          line.all (fun c => decide (¬ classify c = some SpanLang.fa)) = true) :
    wrapLtrContent line = line := by
  rw [wrapLtrContent_single line h1 h2 h3]
  rcases h4 with h | h
  · exact wrapLine_single_class .en line h
  · exact wrapLine_single_class .fa line h

/-- C5 (witness): the amended theorem on the pure-Persian line "سلام". -/
theorem C5_witness :
    ((chs "سلام").all (fun c => decide (¬ c = btick)) = true ∧
     (chs "سلام").all (fun c => decide (¬ c = '\n')) = true ∧
     applyLtrTerms (chs "سلام") = chs "سلام" ∧
     (chs "سلام").all
       (fun c => decide (¬ classify c = some SpanLang.en)) = true) ∧
    wrapLtrContent (chs "سلام") = chs "سلام" :=
  ⟨⟨by decide, by decide, by decide, by decide⟩,
   C5_single_class_line_unchanged (chs "سلام") (by decide) (by decide)
     (by decide) (Or.inl (by decide))⟩

/-- C5 (counterexample): the pure-Latin line "API" contains characters of
only one language class, yet the wrapper does not return it unchanged: the
technical-term pass wraps it in a direction marker. -/
theorem C5_counterexample :
    (chs "API").all (fun c => decide (¬ classify c = some SpanLang.fa)) =
      true ∧
    wrapLtrContent (chs "API") ≠ chs "API" ∧
    wrapLtrContent (chs "API") = chs "<span dir=\"ltr\">API</span>" := by
  exact ⟨by decide, by decide, by decide⟩

/-- C6 (amended): for a single line that mixes Persian and Latin runs and
that actually reaches the generic segmentation — it has no backticks, no
technical-term match, does not already carry a direction marker and is not a
header line — the wrapper emits exactly the span rendering in which every
maximal Latin run whose stripped text is longer than one character is wrapped
in the dir="ltr" marker and every other (in particular every Persian) run is
emitted verbatim; every such Latin run occurs wrapped in the output.  Lines
skipped by the wrapper (headers, marker-carrying lines — including lines the
term pass itself marked) are passed through with their Latin runs
unwrapped. -/
theorem C6_mixed_line_wraps_latin_runs (line : List Char)
    (h1 : line.all (fun c => decide (¬ c = btick)) = true)
    (h2 : line.all (fun c => decide (¬ c = '\n')) = true)
    (h3 : applyLtrTerms line = line)
    (h4 : containsSub (chs "<span dir=") line = false)
    (h5 : begins (chs "#") line = false)
    (h6 : 2 ≤ (detectLanguageSpans line).length) :
    wrapLtrContent line = renderSpans (detectLanguageSpans line) ∧
    ∀ sp ∈ detectLanguageSpans line, sp.lang = .en →
      1 < (pyStrip sp.text).length →
      containsSub (spanOpen ++ sp.text ++ spanClose)
        (wrapLtrContent line) = true := by
  have hmain : wrapLtrContent line = renderSpans (detectLanguageSpans line)
      := by
    rw [wrapLtrContent_single line h1 h2 h3]
    have hstrip : ¬ pyStrip line = [] := by
      intro h0
      rw [detect_nil_of_stripNil line h0] at h6
      simp at h6
    simp only [wrapLine]
    rw [if_neg hstrip]
    have hsk : (containsSub (chs "```") line ||
        begins (chs "    ") (pyStrip line) ||
        containsSub (chs "<span dir=") line || begins (chs "#") line) =
        false := by
      rw [contains_tripletick_false line h1, begins_four_spaces_strip, h4, h5]
      rfl
    simp only [hsk, Bool.false_eq_true, if_false]
    rw [if_pos (by omega)]
  refine ⟨hmain, ?_⟩
  intro sp hsp hlang hlen
  rw [hmain]
  exact mem_render_contains (detectLanguageSpans line) sp hsp hlang hlen

/-- C6 (witness): the amended theorem on the mixed line "کتاب hello": the
Latin run "hello" is wrapped in the direction marker and the Persian run is
emitted verbatim. -/
theorem C6_witness :
    ((chs "کتاب hello").all (fun c => decide (¬ c = btick)) = true ∧
     applyLtrTerms (chs "کتاب hello") = chs "کتاب hello" ∧
     containsSub (chs "<span dir=") (chs "کتاب hello") = false ∧
     2 ≤ (detectLanguageSpans (chs "کتاب hello")).length) ∧
    wrapLtrContent (chs "کتاب hello") =
      renderSpans (detectLanguageSpans (chs "کتاب hello")) ∧
    wrapLtrContent (chs "کتاب hello") =
      chs "کتاب <span dir=\"ltr\">hello</span>" :=
  ⟨⟨by decide, by decide, by decide, by decide⟩,
   (C6_mixed_line_wraps_latin_runs (chs "کتاب hello") (by decide) (by decide)
     (by decide) (by decide) (by decide) (by decide)).1,
   by decide⟩

/-- C6 (counterexample): the header line "# کتاب hello" mixes a Persian run
with the Latin run "hello" (stripped length 5 > 1), yet the wrapper returns
it unchanged — no direction marker is added to any Latin run — because lines
starting with the header character are skipped; this refutes "wraps every
maximal Latin run of length greater than 1" as stated for all mixed lines. -/
theorem C6_counterexample :
    2 ≤ (detectLanguageSpans (chs "# کتاب hello")).length ∧
    (detectLanguageSpans (chs "# کتاب hello")).any
      (fun sp => sp.lang = .en && decide (1 < (pyStrip sp.text).length)) =
      true ∧
    wrapLtrContent (chs "# کتاب hello") = chs "# کتاب hello" ∧
    containsSub spanOpen (chs "# کتاب hello") = false := by
  exact ⟨by decide, by decide, by decide, by decide⟩

theorem filter_not_mem_self (l : List String) :
    l.filter (fun f => decide (f ∉ l)) = [] := by
  rw [List.filter_eq_nil_iff]
  intro a ha
  simp [ha]

/-- C2 (amended): when the external converter invocation fails — nonzero
exit status, timeout, or missing executable — the caller receives a generic
internal-error response whose detail is the global exception handler's fixed
string, independent of the captured tool output (main.py's own except clause
for pandoc errors references the never-imported subprocess module, so
matching it raises NameError and skips every remaining handler, including
the only branch that deletes files); the temporary workspace is removed by
the converter's finally block, but no file in the output directory is
deleted: the request's markdown file and any partially written output file
remain on disk until the age-based cleanup sweep removes them. -/
theorem C2_failure_keeps_partial_output :
    ∀ (outDir uid tempDir ts : String) (refOk : Bool) (stderr : String)
      (w : Bool),
      outputPathOf outDir ts "docx" ∉ tempFilesOf tempDir refOk →
      convertEndpoint outDir uid tempDir ts refOk (.exitNonzero stderr w) =
        (.httpError 500 globalHandlerDetail,
         (outDir ++ "/" ++ uid ++ ".md") ::
           (if w then [outputPathOf outDir ts "docx"] else [])) ∧
      convertEndpoint outDir uid tempDir ts refOk (.timedOut w) =
        (.httpError 500 globalHandlerDetail,
         (outDir ++ "/" ++ uid ++ ".md") ::
           (if w then [outputPathOf outDir ts "docx"] else [])) ∧
      convertEndpoint outDir uid tempDir ts refOk .execMissing =
        (.httpError 500 globalHandlerDetail,
         [outDir ++ "/" ++ uid ++ ".md"]) := by
  intro outDir uid tempDir ts refOk stderr w hout
  have hfiles : ∀ b : Bool,
      ((tempFilesOf tempDir refOk ++
        (if b then [outputPathOf outDir ts "docx"] else [])).filter
          (fun f => decide (f ∉ tempFilesOf tempDir refOk))) =
        (if b then [outputPathOf outDir ts "docx"] else []) := by
    intro b
    rw [List.filter_append, filter_not_mem_self]
    cases b
    · simp
    · simp [List.filter, hout]
  refine ⟨?_, ?_, ?_⟩
  · simp only [convertEndpoint, renderMarkdownAsync]
    rw [hfiles w]
  · simp only [convertEndpoint, renderMarkdownAsync]
    rw [hfiles w]
  · simp only [convertEndpoint, renderMarkdownAsync]
    rw [show (tempFilesOf tempDir refOk).filter
          (fun f => decide (f ∉ tempFilesOf tempDir refOk)) = [] from
        filter_not_mem_self _]

/-- C2 (witness): the amended theorem at a concrete failed request. -/
theorem C2_witness :
    outputPathOf "/outputs" "20240101" "docx" ∉ tempFilesOf "/tmp/w" true ∧
    convertEndpoint "/outputs" "u1" "/tmp/w" "20240101" true
        (.exitNonzero "pandoc: fatal" true) =
      (.httpError 500 globalHandlerDetail,
       ("/outputs" ++ "/" ++ "u1" ++ ".md") ::
         (if true then [outputPathOf "/outputs" "20240101" "docx"] else [])) :=
  ⟨by decide,
   (C2_failure_keeps_partial_output "/outputs" "u1" "/tmp/w" "20240101" true
     "pandoc: fatal" true (by decide)).1⟩

/-- C2 (counterexample): a nonzero-exit pandoc run that left a partially
written output file: after the request is finished the partial output file
`/outputs/output_20240101.docx` is still on disk (so is the input markdown
file), refuting "no output file for that request is left on disk (any
partially written output file is deleted)"; the caller does receive the
generic internal-error response. -/
theorem C2_counterexample :
    (convertEndpoint "/outputs" "u1" "/tmp/w" "20240101" true
        (.exitNonzero "pandoc: fatal" true)).2.contains
      (outputPathOf "/outputs" "20240101" "docx") = true ∧
    (convertEndpoint "/outputs" "u1" "/tmp/w" "20240101" true
        (.exitNonzero "pandoc: fatal" true)).2.contains
      ("/outputs" ++ "/" ++ "u1" ++ ".md") = true ∧
    (convertEndpoint "/outputs" "u1" "/tmp/w" "20240101" true
        (.exitNonzero "pandoc: fatal" true)).1 =
      .httpError 500 globalHandlerDetail := by
  exact ⟨by decide, by decide, by decide⟩

/-- C8 (amended): on every docx conversion the converter attempts to generate
a reference document anew (`_create_reference_docx` is invoked
unconditionally in the docx branch), inside that request's own temporary
workspace, and when the generation succeeds the command passes that
per-request path — there is no on-disk cache lookup and no reuse across
calls. -/
theorem C8_reference_regenerated_per_request :
    ∀ (i o d f mf : String) (refOk : Bool),
      (buildDocxCommand i o d f mf refOk).refAttempted = true ∧
      (refOk = true →
        refDocArg (d ++ "/reference.docx") ∈
          (buildDocxCommand i o d f mf refOk).cmd) := by
  intro i o d f mf refOk
  refine ⟨rfl, ?_⟩
  intro h
  subst h
  simp [buildDocxCommand, createReferenceDocx]

/-- C8 (witness): the amended theorem at a concrete request. -/
theorem C8_witness :
    (buildDocxCommand "/tmp/w/input.md" "/outputs/output_1.docx" "/tmp/w"
        "Vazirmatn" "Vazir Code" true).refAttempted = true ∧
    refDocArg ("/tmp/w" ++ "/reference.docx") ∈
      (buildDocxCommand "/tmp/w/input.md" "/outputs/output_1.docx" "/tmp/w"
        "Vazirmatn" "Vazir Code" true).cmd :=
  ⟨(C8_reference_regenerated_per_request "/tmp/w/input.md"
      "/outputs/output_1.docx" "/tmp/w" "Vazirmatn" "Vazir Code" true).1,
   (C8_reference_regenerated_per_request "/tmp/w/input.md"
      "/outputs/output_1.docx" "/tmp/w" "Vazirmatn" "Vazir Code" true).2 rfl⟩

/-- C8 (counterexample): a second conversion, with its own fresh temporary
workspace /tmp/docright_b, again attempts reference generation and passes the
reference path inside its own workspace; the reference document produced by
the first conversion (under /tmp/docright_a) is not passed — refuting
"later conversions pass the existing reference document to the external
converter instead of regenerating it per request". -/
theorem C8_counterexample :
    (buildDocxCommand "/tmp/docright_b/input.md" "/outputs/output_2.docx"
        "/tmp/docright_b" "Vazirmatn" "Vazir Code" true).refAttempted = true ∧
    refDocArg "/tmp/docright_a/reference.docx" ∉
      (buildDocxCommand "/tmp/docright_b/input.md" "/outputs/output_2.docx"
        "/tmp/docright_b" "Vazirmatn" "Vazir Code" true).cmd ∧
    refDocArg "/tmp/docright_b/reference.docx" ∈
      (buildDocxCommand "/tmp/docright_b/input.md" "/outputs/output_2.docx"
        "/tmp/docright_b" "Vazirmatn" "Vazir Code" true).cmd := by
  exact ⟨rfl, by decide, by decide⟩

end FarsiDoc
